import Mathlib

/-!
Verification of the Arch-Sense daemon (src/daemon) against its
natural-language specification.  The Rust sources are shallowly embedded:
pure functions become Lean functions, u8/u16 arithmetic becomes Nat with
explicit wrap-around where the machine width matters, hardware and USB
side effects become oracles plus explicit event traces, and `Result` becomes
`Except String`.
-/

namespace ArchSense

/-!
## Fan curve controller

Embedding of `calculate_fan_speed` (src/daemon/src/main.rs, lines 23-53).
Temperatures and duties are `u8` in the source and are modelled as `Nat`
with explicit bounds; `u8` wrapping subtraction is `u8sub` (release-build
Rust semantics).  The `f32` interpolation arithmetic is modelled
faithfully: every operand is an integer below 256 (exactly representable
in binary32), each of the three arithmetic operations (division,
multiplication, addition) is followed by IEEE-754 round-to-nearest-even
at 24 significand bits (`roundF32`; all intermediate values lie well
inside the normal range, so neither subnormals nor overflow can occur),
and the result is consumed by the saturating truncation of Rust's
`as u8` cast, modelled by `castF32toU8`.
-/

/-- Wrapping `u8` subtraction `a - b` (two's complement, release-build
Rust semantics). -/
def u8sub (a b : Nat) : Nat := (a + 256 - b) % 256

/-- Rust's `f32 as u8` cast: truncate toward zero and saturate to
[0, 255].  `Int.toNat` of the floor realises both the truncation and the
saturation at 0 for the nonnegative rationals that occur here. -/
def castF32toU8 (q : ℚ) : Nat := min 255 (Int.toNat (Int.floor q))

/-- Round a rational to the nearest integer, ties to even. -/
def roundHalfEven (x : ℚ) : ℤ :=
  if x - ⌊x⌋ < 1/2 then ⌊x⌋
  else if 1/2 < x - ⌊x⌋ then ⌊x⌋ + 1
  else if ⌊x⌋ % 2 = 0 then ⌊x⌋ else ⌊x⌋ + 1

lemma rhe_err (x : ℚ) : |(roundHalfEven x : ℚ) - x| ≤ 1/2 := by
  have h1 := Int.floor_le x
  have h2 := Int.sub_one_lt_floor x
  unfold roundHalfEven
  split_ifs with ha hb hc <;> rw [abs_le] <;> push_cast <;> constructor <;> linarith

lemma rhe_le_floor_add_one (x : ℚ) : roundHalfEven x ≤ ⌊x⌋ + 1 := by
  unfold roundHalfEven
  split_ifs <;> omega

lemma floor_le_rhe (x : ℚ) : ⌊x⌋ ≤ roundHalfEven x := by
  unfold roundHalfEven
  split_ifs <;> omega

lemma rhe_mono {x y : ℚ} (h : x ≤ y) : roundHalfEven x ≤ roundHalfEven y := by
  rcases lt_or_ge ⌊x⌋ ⌊y⌋ with hf | hf
  · have hx := rhe_le_floor_add_one x
    have hy := floor_le_rhe y
    omega
  · have hf3 : ⌊x⌋ = ⌊y⌋ := le_antisymm (Int.floor_mono h) hf
    unfold roundHalfEven
    rw [← hf3]
    split_ifs <;> first | omega | (exfalso; linarith)

lemma rhe_intCast (k : ℤ) : roundHalfEven (k : ℚ) = k := by
  unfold roundHalfEven
  rw [Int.floor_intCast, if_pos (by norm_num)]

lemma rhe_nonneg {x : ℚ} (hx : 0 ≤ x) : 0 ≤ roundHalfEven x := by
  have h := Int.floor_nonneg.mpr hx
  have := floor_le_rhe x
  omega

/-- Round-to-nearest, ties-to-even, of a rational to an IEEE-754 binary32
value (24-bit significand); nonpositive inputs give 0. -/
def roundF32 (q : ℚ) : ℚ :=
  if q ≤ 0 then 0
  else (roundHalfEven (q / 2 ^ (Int.log 2 q - 23)) : ℚ) * 2 ^ (Int.log 2 q - 23)

lemma intLog_eq {q : ℚ} (e : ℤ) (hq : 0 < q) (h1 : (2:ℚ) ^ e ≤ q)
    (h2 : q < 2 ^ (e + 1)) : Int.log 2 q = e := by
  have hl1 : (2:ℚ) ^ (Int.log 2 q) ≤ q := Int.zpow_log_le_self (by norm_num) hq
  have hl2 : q < (2:ℚ) ^ (Int.log 2 q + 1) := Int.lt_zpow_succ_log_self (by norm_num) q
  by_contra hne
  rcases lt_or_gt_of_ne hne with hlt | hgt
  · have h3 : (2:ℚ) ^ (Int.log 2 q + 1) ≤ 2 ^ e :=
      zpow_le_zpow_right₀ (by norm_num) (by omega)
    linarith
  · have h3 : (2:ℚ) ^ (e + 1) ≤ 2 ^ (Int.log 2 q) :=
      zpow_le_zpow_right₀ (by norm_num) (by omega)
    linarith

lemma roundF32_eval (q : ℚ) (e m : ℤ) (hq : 0 < q) (h1 : (2:ℚ) ^ e ≤ q)
    (h2 : q < 2 ^ (e + 1)) (hm : roundHalfEven (q / 2 ^ (e - 23)) = m) :
    roundF32 q = (m : ℚ) * 2 ^ (e - 23) := by
  unfold roundF32
  rw [if_neg (not_le.mpr hq), intLog_eq e hq h1 h2, hm]

lemma roundF32_nonneg (q : ℚ) : 0 ≤ roundF32 q := by
  unfold roundF32
  split_ifs with h
  · exact le_rfl
  · push_neg at h
    have hs : (0:ℚ) < 2 ^ (Int.log 2 q - 23) := zpow_pos (by norm_num) _
    have h0 : (0:ℚ) ≤ q / 2 ^ (Int.log 2 q - 23) := le_of_lt (div_pos h hs)
    have h1 := rhe_nonneg h0
    have h2 : (0:ℚ) ≤ (roundHalfEven (q / 2 ^ (Int.log 2 q - 23)) : ℚ) := by
      exact_mod_cast h1
    exact mul_nonneg h2 (le_of_lt hs)

lemma roundF32_err {q : ℚ} (hq : 0 ≤ q) : |roundF32 q - q| ≤ q / 2 ^ 24 := by
  rcases eq_or_lt_of_le hq with h0 | hpos
  · rw [← h0]
    simp [roundF32]
  · unfold roundF32
    rw [if_neg (not_le.mpr hpos)]
    have hs : (0:ℚ) < 2 ^ (Int.log 2 q - 23) := zpow_pos (by norm_num) _
    have h1 := rhe_err (q / 2 ^ (Int.log 2 q - 23))
    have h2 : |(roundHalfEven (q / 2 ^ (Int.log 2 q - 23)) : ℚ) *
        2 ^ (Int.log 2 q - 23) - q| ≤ 2 ^ (Int.log 2 q - 23) / 2 :=
      calc |(roundHalfEven (q / 2 ^ (Int.log 2 q - 23)) : ℚ) *
            2 ^ (Int.log 2 q - 23) - q|
          = |((roundHalfEven (q / 2 ^ (Int.log 2 q - 23)) : ℚ) -
              q / 2 ^ (Int.log 2 q - 23)) * 2 ^ (Int.log 2 q - 23)| := by
            rw [sub_mul, div_mul_cancel₀ _ (ne_of_gt hs)]
        _ = |(roundHalfEven (q / 2 ^ (Int.log 2 q - 23)) : ℚ) -
              q / 2 ^ (Int.log 2 q - 23)| * (2 ^ (Int.log 2 q - 23)) := by
            rw [abs_mul, abs_of_pos hs]
        _ ≤ (1/2) * 2 ^ (Int.log 2 q - 23) :=
            mul_le_mul_of_nonneg_right h1 (le_of_lt hs)
        _ = 2 ^ (Int.log 2 q - 23) / 2 := by ring
    have h4 : (2:ℚ) ^ (Int.log 2 q) ≤ q := Int.zpow_log_le_self (by norm_num) hpos
    have h5 : (2:ℚ) ^ (Int.log 2 q - 23) / 2 = (2:ℚ) ^ (Int.log 2 q) / 2 ^ 24 := by
      rw [zpow_sub₀ (by norm_num : (2:ℚ) ≠ 0)]
      norm_num
      ring
    have h6 : (2:ℚ) ^ (Int.log 2 q) / 2 ^ 24 ≤ q / 2 ^ 24 := by gcongr
    calc |(roundHalfEven (q / 2 ^ (Int.log 2 q - 23)) : ℚ) *
          2 ^ (Int.log 2 q - 23) - q| ≤ 2 ^ (Int.log 2 q - 23) / 2 := h2
      _ = (2:ℚ) ^ (Int.log 2 q) / 2 ^ 24 := h5
      _ ≤ q / 2 ^ 24 := h6

lemma roundF32_mono {q r : ℚ} (h : q ≤ r) : roundF32 q ≤ roundF32 r := by
  by_cases hq : q ≤ 0
  · have h1 : roundF32 q = 0 := by
      unfold roundF32
      rw [if_pos hq]
    rw [h1]
    exact roundF32_nonneg r
  · push_neg at hq
    have hr : 0 < r := lt_of_lt_of_le hq h
    unfold roundF32
    rw [if_neg (not_le.mpr hq), if_neg (not_le.mpr hr)]
    have hlog : Int.log 2 q ≤ Int.log 2 r := Int.log_mono_right hq h
    have hsq : (0:ℚ) < 2 ^ (Int.log 2 q - 23) := zpow_pos (by norm_num) _
    have hsr : (0:ℚ) < 2 ^ (Int.log 2 r - 23) := zpow_pos (by norm_num) _
    rcases eq_or_lt_of_le hlog with heq | hlt
    · rw [← heq]
      have hd : q / 2 ^ (Int.log 2 q - 23) ≤ r / 2 ^ (Int.log 2 q - 23) := by gcongr
      have hm := rhe_mono hd
      exact mul_le_mul_of_nonneg_right (by exact_mod_cast hm) (le_of_lt hsq)
    · -- upper bound on the q side
      have hqlt : q < (2:ℚ) ^ (Int.log 2 q + 1) := Int.lt_zpow_succ_log_self (by norm_num) q
      have hbnd : q / 2 ^ (Int.log 2 q - 23) < (2:ℚ) ^ (24:ℤ) := by
        rw [div_lt_iff₀ hsq, ← zpow_add₀ (by norm_num : (2:ℚ) ≠ 0)]
        have he : (24:ℤ) + (Int.log 2 q - 23) = Int.log 2 q + 1 := by ring
        rw [he]
        exact hqlt
      have hfl : roundHalfEven (q / 2 ^ (Int.log 2 q - 23)) ≤ 2 ^ 24 := by
        have hfl2 : ⌊q / 2 ^ (Int.log 2 q - 23)⌋ < 2 ^ 24 := by
          rw [Int.floor_lt]
          have hcast : (((2:ℤ) ^ 24 : ℤ) : ℚ) = (2:ℚ) ^ (24:ℤ) := by
            push_cast
            norm_num
          rw [hcast]
          exact hbnd
        have := rhe_le_floor_add_one (q / 2 ^ (Int.log 2 q - 23))
        omega
      have hub : (roundHalfEven (q / 2 ^ (Int.log 2 q - 23)) : ℚ) *
          2 ^ (Int.log 2 q - 23) ≤ (2:ℚ) ^ (Int.log 2 q + 1) := by
        have h1 : (roundHalfEven (q / 2 ^ (Int.log 2 q - 23)) : ℚ) ≤ (2:ℚ) ^ (24:ℤ) := by
          have : ((2:ℤ)^24 : ℚ) = (2:ℚ) ^ (24:ℤ) := by push_cast; norm_num
          rw [← this]
          exact_mod_cast hfl
        calc (roundHalfEven (q / 2 ^ (Int.log 2 q - 23)) : ℚ) *
              2 ^ (Int.log 2 q - 23) ≤ (2:ℚ) ^ (24:ℤ) * 2 ^ (Int.log 2 q - 23) :=
            mul_le_mul_of_nonneg_right h1 (le_of_lt hsq)
          _ = (2:ℚ) ^ (Int.log 2 q + 1) := by
            rw [← zpow_add₀ (by norm_num : (2:ℚ) ≠ 0)]
            congr 1
            ring
      -- lower bound on the r side
      have hrge : (2:ℚ) ^ (Int.log 2 r) ≤ r := Int.zpow_log_le_self (by norm_num) hr
      have hlow : (2:ℚ) ^ (23:ℤ) ≤ r / 2 ^ (Int.log 2 r - 23) := by
        rw [le_div_iff₀ hsr, ← zpow_add₀ (by norm_num : (2:ℚ) ≠ 0)]
        have he : (23:ℤ) + (Int.log 2 r - 23) = Int.log 2 r := by ring
        rw [he]
        exact hrge
      have hfl3 : (2:ℤ) ^ 23 ≤ ⌊r / 2 ^ (Int.log 2 r - 23)⌋ := by
        rw [Int.le_floor]
        have hcast : (((2:ℤ) ^ 23 : ℤ) : ℚ) = (2:ℚ) ^ (23:ℤ) := by push_cast; norm_num
        rw [hcast]
        exact hlow
      have hlb : (2:ℚ) ^ (Int.log 2 r) ≤
          (roundHalfEven (r / 2 ^ (Int.log 2 r - 23)) : ℚ) * 2 ^ (Int.log 2 r - 23) := by
        have h1 : ((2:ℤ) ^ 23 : ℚ) ≤ (roundHalfEven (r / 2 ^ (Int.log 2 r - 23)) : ℚ) := by
          have := floor_le_rhe (r / 2 ^ (Int.log 2 r - 23))
          exact_mod_cast le_trans hfl3 this
        have h2 : (2:ℚ) ^ (23:ℤ) * 2 ^ (Int.log 2 r - 23) = (2:ℚ) ^ (Int.log 2 r) := by
          rw [← zpow_add₀ (by norm_num : (2:ℚ) ≠ 0)]
          congr 1
          ring
        calc (2:ℚ) ^ (Int.log 2 r) = (2:ℚ) ^ (23:ℤ) * 2 ^ (Int.log 2 r - 23) := h2.symm
          _ ≤ (roundHalfEven (r / 2 ^ (Int.log 2 r - 23)) : ℚ) * 2 ^ (Int.log 2 r - 23) := by
            apply mul_le_mul_of_nonneg_right _ (le_of_lt hsr)
            have hcast : (((2:ℤ) ^ 23 : ℤ) : ℚ) = (2:ℚ) ^ (23:ℤ) := by push_cast; norm_num
            rw [← hcast]
            exact h1
      have hmid : (2:ℚ) ^ (Int.log 2 q + 1) ≤ (2:ℚ) ^ (Int.log 2 r) :=
        zpow_le_zpow_right₀ (by norm_num) (by omega)
      linarith

lemma roundF32_intScaled {q : ℚ} (hq : 0 < q) (m : ℤ)
    (hm : q = (m : ℚ) * 2 ^ (Int.log 2 q - 23)) : roundF32 q = q := by
  unfold roundF32
  rw [if_neg (not_le.mpr hq)]
  set e := Int.log 2 q - 23 with he
  have hs : (0:ℚ) < 2 ^ e := zpow_pos (by norm_num) _
  have h1 : q / 2 ^ e = (m : ℚ) := by
    rw [hm]
    field_simp
  rw [h1, rhe_intCast, ← hm]

lemma roundF32_natCast (n : ℕ) (hn : n ≤ 2 ^ 24) : roundF32 (n : ℚ) = n := by
  rcases Nat.eq_zero_or_pos n with h0 | hpos
  · subst h0
    simp [roundF32]
  · have hq : (0:ℚ) < n := by exact_mod_cast hpos
    have hub : Int.log 2 (n:ℚ) ≤ 24 := by
      have h1 : (2:ℚ) ^ (Int.log 2 (n:ℚ)) ≤ n := Int.zpow_log_le_self (by norm_num) hq
      by_contra hc
      push_neg at hc
      have h2 : (2:ℚ) ^ (25:ℤ) ≤ 2 ^ (Int.log 2 (n:ℚ)) :=
        zpow_le_zpow_right₀ (by norm_num) (by omega)
      have h3 : (n:ℚ) ≤ ((2:ℕ) ^ 24 : ℕ) := by exact_mod_cast hn
      have h4 : (((2:ℕ) ^ 24 : ℕ) : ℚ) = (2:ℚ) ^ (24:ℤ) := by push_cast; norm_num
      have h5 : (2:ℚ) ^ (24:ℤ) < (2:ℚ) ^ (25:ℤ) := by norm_num
      rw [h4] at h3
      linarith
    rcases lt_or_eq_of_le hub with hlt | heq
    · -- log ≤ 23
      apply roundF32_intScaled hq ((n:ℤ) * 2 ^ (23 - Int.log 2 (n:ℚ)).toNat)
      have hk : ((23 - Int.log 2 (n:ℚ)).toNat : ℤ) = 23 - Int.log 2 (n:ℚ) :=
        Int.toNat_of_nonneg (by omega)
      push_cast
      rw [mul_assoc, ← zpow_natCast (2:ℚ) (23 - Int.log 2 (n:ℚ)).toNat, hk,
        ← zpow_add₀ (by norm_num : (2:ℚ) ≠ 0)]
      have he : 23 - Int.log 2 (n:ℚ) + (Int.log 2 (n:ℚ) - 23) = 0 := by ring
      rw [he]
      norm_num
    · -- log = 24: then n = 2^24
      have h1 : (2:ℚ) ^ (Int.log 2 (n:ℚ)) ≤ n := Int.zpow_log_le_self (by norm_num) hq
      rw [heq] at h1
      have h4 : (((2:ℕ) ^ 24 : ℕ) : ℚ) = (2:ℚ) ^ (24:ℤ) := by push_cast; norm_num
      have h2 : ((2:ℕ) ^ 24 : ℕ) ≤ n := by
        have := h1
        rw [← h4] at this
        exact_mod_cast this
      have h3 : n = 2 ^ 24 := le_antisymm hn h2
      apply roundF32_intScaled hq (2 ^ 23)
      rw [heq, h3]
      push_cast
      norm_num


/-- The f32 evaluation of the interpolation expression `f1 + (d/r) * fr`,
with one binary32 rounding per arithmetic operation. -/
def f32interp (d r fr f1 : Nat) : ℚ :=
  roundF32 ((f1 : ℚ) + roundF32 (roundF32 ((d : ℚ) / (r : ℚ)) * (fr : ℚ)))

lemma roundF32_le_natCast {q : ℚ} (n : ℕ) (hn : n ≤ 2 ^ 24) (h : q ≤ n) :
    roundF32 q ≤ n := by
  have h2 := roundF32_mono h
  rwa [roundF32_natCast n hn] at h2

lemma natCast_le_roundF32 {q : ℚ} (n : ℕ) (hn : n ≤ 2 ^ 24) (h : (n : ℚ) ≤ q) :
    (n : ℚ) ≤ roundF32 q := by
  have h2 := roundF32_mono h
  rwa [roundF32_natCast n hn] at h2

lemma roundF32_one : roundF32 (1 : ℚ) = 1 := by
  have h := roundF32_natCast 1 (by norm_num)
  simpa using h

lemma f32interp_bounds (d r fr f1 : ℕ) (hd : d ≤ r) (hfr : fr ≤ 255)
    (hf1 : f1 ≤ 255) :
    (f1 : ℚ) ≤ f32interp d r fr f1 ∧
      f32interp d r fr f1 ≤ ((f1 + fr : ℕ) : ℚ) := by
  have hq1l : 0 ≤ roundF32 ((d : ℚ) / (r : ℚ)) := roundF32_nonneg _
  have hq1u : roundF32 ((d : ℚ) / (r : ℚ)) ≤ 1 := by
    have hdr : (d : ℚ) / (r : ℚ) ≤ 1 := by
      rcases Nat.eq_zero_or_pos r with h0 | hpos
      · subst h0
        simp
      · rw [div_le_one (by exact_mod_cast hpos)]
        exact_mod_cast hd
    have h1 := roundF32_mono hdr
    rwa [roundF32_one] at h1
  have hpl : 0 ≤ roundF32 (roundF32 ((d : ℚ) / (r : ℚ)) * (fr : ℚ)) :=
    roundF32_nonneg _
  have hpu : roundF32 (roundF32 ((d : ℚ) / (r : ℚ)) * (fr : ℚ)) ≤ (fr : ℚ) := by
    apply roundF32_le_natCast fr (le_trans hfr (by norm_num))
    calc roundF32 ((d : ℚ) / (r : ℚ)) * (fr : ℚ) ≤ 1 * fr :=
        mul_le_mul_of_nonneg_right hq1u (by positivity)
      _ = fr := one_mul _
  constructor
  · apply natCast_le_roundF32 f1 (le_trans hf1 (by norm_num))
    linarith
  · apply roundF32_le_natCast (f1 + fr) (le_trans (by omega) (by norm_num : (510 : ℕ) ≤ 2 ^ 24))
    push_cast
    linarith

lemma f32interp_mono (d d2 r fr f1 : ℕ) (hdd : d ≤ d2) :
    f32interp d r fr f1 ≤ f32interp d2 r fr f1 := by
  apply roundF32_mono
  have h1 : (d : ℚ) / (r : ℚ) ≤ (d2 : ℚ) / (r : ℚ) := by
    rcases Nat.eq_zero_or_pos r with h0 | hpos
    · subst h0
      simp
    · have hr : (0 : ℚ) < r := by exact_mod_cast hpos
      have hdq : (d : ℚ) ≤ (d2 : ℚ) := by exact_mod_cast hdd
      gcongr
  have h2 := roundF32_mono h1
  have h3 : roundF32 ((d : ℚ) / (r : ℚ)) * (fr : ℚ) ≤
      roundF32 ((d2 : ℚ) / (r : ℚ)) * (fr : ℚ) :=
    mul_le_mul_of_nonneg_right h2 (by positivity)
  have h4 := roundF32_mono h3
  linarith

lemma f32interp_right (r fr f1 : ℕ) (hr : 1 ≤ r) (hfr : fr ≤ 255)
    (hf1 : f1 ≤ 255) : f32interp r r fr f1 = ((f1 + fr : ℕ) : ℚ) := by
  unfold f32interp
  have hr0 : (r : ℚ) ≠ 0 := by
    have : (0 : ℚ) < r := by exact_mod_cast hr
    exact ne_of_gt this
  rw [div_self hr0, roundF32_one, one_mul,
    roundF32_natCast fr (le_trans hfr (by norm_num)),
    show (f1 : ℚ) + (fr : ℚ) = ((f1 + fr : ℕ) : ℚ) by push_cast; ring,
    roundF32_natCast (f1 + fr) (le_trans (by omega) (by norm_num : (510 : ℕ) ≤ 2 ^ 24))]

lemma f32interp_band (d r fr f1 : ℕ) (hd1 : 1 ≤ d) (hd : d ≤ r)
    (hfr : fr ≤ 255) (hf1 : f1 ≤ 255) :
    |f32interp d r fr f1 - ((f1 : ℚ) + (d : ℚ) / (r : ℚ) * (fr : ℚ))| ≤
      1020 / 2 ^ 24 := by
  have hrpos : (0 : ℚ) < r := by
    have : 1 ≤ r := le_trans hd1 hd
    exact_mod_cast this
  have hq0n : (0 : ℚ) ≤ (d : ℚ) / (r : ℚ) := by positivity
  have hq0u : (d : ℚ) / (r : ℚ) ≤ 1 := by
    rw [div_le_one hrpos]
    exact_mod_cast hd
  have hfrq : (fr : ℚ) ≤ 255 := by exact_mod_cast hfr
  have hf1q : (f1 : ℚ) ≤ 255 := by exact_mod_cast hf1
  have hfrn : (0 : ℚ) ≤ fr := by positivity
  unfold f32interp
  set q1 := roundF32 ((d : ℚ) / (r : ℚ)) with hq1def
  have e1 : |q1 - (d : ℚ) / (r : ℚ)| ≤ ((d : ℚ) / (r : ℚ)) / 2 ^ 24 :=
    roundF32_err hq0n
  have hq1n : 0 ≤ q1 := roundF32_nonneg _
  have hq1u : q1 ≤ 1 := by
    have h1 := roundF32_mono hq0u
    rw [roundF32_one] at h1
    exact h1
  set p := roundF32 (q1 * (fr : ℚ)) with hpdef
  have hq1frn : (0 : ℚ) ≤ q1 * fr := mul_nonneg hq1n hfrn
  have e2 : |p - q1 * (fr : ℚ)| ≤ (q1 * (fr : ℚ)) / 2 ^ 24 := roundF32_err hq1frn
  have hq1fru : q1 * (fr : ℚ) ≤ 255 := by nlinarith
  have hpn : 0 ≤ p := roundF32_nonneg _
  have hpu : p ≤ (fr : ℚ) := by
    have h1 : q1 * (fr : ℚ) ≤ (fr : ℚ) := by nlinarith
    have h2 := roundF32_mono h1
    rwa [roundF32_natCast fr (le_trans hfr (by norm_num))] at h2
  have hfpn : (0 : ℚ) ≤ (f1 : ℚ) + p := by positivity
  have e3 : |roundF32 ((f1 : ℚ) + p) - ((f1 : ℚ) + p)| ≤ ((f1 : ℚ) + p) / 2 ^ 24 :=
    roundF32_err hfpn
  have hfpu : (f1 : ℚ) + p ≤ 510 := by linarith
  have c1 : |q1 * (fr : ℚ) - ((d : ℚ) / (r : ℚ)) * (fr : ℚ)| ≤ 255 / 2 ^ 24 := by
    rw [← sub_mul, abs_mul, abs_of_nonneg hfrn]
    have h1 : |q1 - (d : ℚ) / (r : ℚ)| ≤ 1 / 2 ^ 24 :=
      le_trans e1 (by gcongr)
    have h2 : |q1 - (d : ℚ) / (r : ℚ)| * (fr : ℚ) ≤ (1 / 2 ^ 24) * 255 :=
      mul_le_mul h1 hfrq hfrn (by norm_num)
    linarith
  have c2 : |p - ((d : ℚ) / (r : ℚ)) * (fr : ℚ)| ≤ 510 / 2 ^ 24 := by
    have h1 : |p - q1 * (fr : ℚ)| ≤ 255 / 2 ^ 24 := by
      apply le_trans e2
      calc (q1 * (fr : ℚ)) / 2 ^ 24 ≤ 255 / 2 ^ 24 := by gcongr
        _ = 255 / 2 ^ 24 := rfl
    calc |p - ((d : ℚ) / (r : ℚ)) * (fr : ℚ)|
        ≤ |p - q1 * (fr : ℚ)| + |q1 * (fr : ℚ) - ((d : ℚ) / (r : ℚ)) * (fr : ℚ)| :=
          abs_sub_le _ _ _
      _ ≤ 255 / 2 ^ 24 + 255 / 2 ^ 24 := add_le_add h1 c1
      _ = 510 / 2 ^ 24 := by ring
  have c3 : |roundF32 ((f1 : ℚ) + p) - ((f1 : ℚ) + p)| ≤ 510 / 2 ^ 24 := by
    apply le_trans e3
    calc ((f1 : ℚ) + p) / 2 ^ 24 ≤ 510 / 2 ^ 24 := by gcongr
      _ = 510 / 2 ^ 24 := rfl
  calc |roundF32 ((f1 : ℚ) + p) - ((f1 : ℚ) + (d : ℚ) / (r : ℚ) * (fr : ℚ))|
      ≤ |roundF32 ((f1 : ℚ) + p) - ((f1 : ℚ) + p)| +
        |((f1 : ℚ) + p) - ((f1 : ℚ) + (d : ℚ) / (r : ℚ) * (fr : ℚ))| :=
        abs_sub_le _ _ _
    _ = |roundF32 ((f1 : ℚ) + p) - ((f1 : ℚ) + p)| +
        |p - ((d : ℚ) / (r : ℚ)) * (fr : ℚ)| := by
        rw [add_sub_add_left_eq_sub]
    _ ≤ 510 / 2 ^ 24 + 510 / 2 ^ 24 := add_le_add c3 c2
    _ = 1020 / 2 ^ 24 := by ring


lemma floor_natCast_div (N r : ℕ) : ⌊(N : ℚ) / (r : ℚ)⌋ = ((N / r : ℕ) : ℤ) := by
  rcases Nat.eq_zero_or_pos r with h0 | hpos
  · subst h0
    simp
  · have hq : (0 : ℚ) ≤ (N : ℚ) / (r : ℚ) := by positivity
    have h1 : Int.toNat ⌊(N : ℚ) / (r : ℚ)⌋ = N / r := by
      rw [Int.floor_toNat, Nat.floor_div_nat, Nat.floor_natCast]
    have h2 : 0 ≤ ⌊(N : ℚ) / (r : ℚ)⌋ := Int.floor_nonneg.mpr hq
    omega

lemma f32interp_floor (d r fr f1 : ℕ) (hd1 : 1 ≤ d) (hd : d ≤ r) (hr2 : r ≤ 255)
    (hfr : fr ≤ 255) (hf1 : f1 ≤ 255) :
    ⌊(f1 : ℚ) + (d : ℚ) / (r : ℚ) * (fr : ℚ)⌋ - 1 ≤ ⌊f32interp d r fr f1⌋ ∧
    ⌊f32interp d r fr f1⌋ ≤ ⌊(f1 : ℚ) + (d : ℚ) / (r : ℚ) * (fr : ℚ)⌋ ∧
    ((f1 : ℚ) + (d : ℚ) / (r : ℚ) * (fr : ℚ) ≠
        (⌊(f1 : ℚ) + (d : ℚ) / (r : ℚ) * (fr : ℚ)⌋ : ℚ) →
      ⌊f32interp d r fr f1⌋ = ⌊(f1 : ℚ) + (d : ℚ) / (r : ℚ) * (fr : ℚ)⌋) := by
  have hrpos : (0 : ℚ) < r := by
    have : 1 ≤ r := le_trans hd1 hd
    exact_mod_cast this
  set x : ℚ := (f1 : ℚ) + (d : ℚ) / (r : ℚ) * (fr : ℚ) with hxdef
  set s : ℚ := f32interp d r fr f1 with hsdef
  have hband : |s - x| ≤ 1020 / 2 ^ 24 := f32interp_band d r fr f1 hd1 hd hfr hf1
  obtain ⟨hb1, hb2⟩ := abs_le.mp hband
  set N : ℕ := f1 * r + d * fr with hNdef
  have hxN : x = (N : ℚ) / (r : ℚ) := by
    rw [hxdef, hNdef]
    push_cast
    field_simp
  have hfloorx : ⌊x⌋ = ((N / r : ℕ) : ℤ) := by
    rw [hxN]
    exact floor_natCast_div N r
  have hNsplit : (N : ℚ) = (r : ℚ) * ((N / r : ℕ) : ℚ) + ((N % r : ℕ) : ℚ) := by
    exact_mod_cast (Nat.div_add_mod N r).symm
  clear_value x s N
  have hfrac : x = ((N / r : ℕ) : ℚ) + ((N % r : ℕ) : ℚ) / (r : ℚ) := by
    rw [hxN, hNsplit]
    field_simp
    ring
  have heps : (1020 : ℚ) / 2 ^ 24 < 1 / (r : ℚ) := by
    have h1 : (1 : ℚ) / 255 ≤ 1 / (r : ℚ) := by
      apply one_div_le_one_div_of_le hrpos
      exact_mod_cast hr2
    have h2 : (1020 : ℚ) / 2 ^ 24 < 1 / 255 := by norm_num
    linarith
  have hrinv : (1 : ℚ) / (r : ℚ) ≤ 1 := by
    rw [div_le_one hrpos]
    have : (1 : ℕ) ≤ r := le_trans hd1 hd
    exact_mod_cast this
  have hc : (1020 : ℚ) / 2 ^ 24 ≤ 1 := by norm_num
  have hlow : ⌊x⌋ - 1 ≤ ⌊s⌋ := by
    apply Int.le_floor.mpr
    have h1 : ((⌊x⌋ - 1 : ℤ) : ℚ) = (⌊x⌋ : ℚ) - 1 := by push_cast; ring
    rw [h1]
    have h2 : (⌊x⌋ : ℚ) ≤ x := Int.floor_le x
    linarith
  rcases Nat.eq_zero_or_pos (N % r) with hm0 | hmpos
  · have hxq : x = ((N / r : ℕ) : ℚ) := by
      rw [hfrac, hm0]
      push_cast
      ring
    have hxint : x = (⌊x⌋ : ℚ) := by
      rw [hfloorx]
      exact_mod_cast hxq
    have hup : ⌊s⌋ ≤ ⌊x⌋ := by
      have h1 : s < (⌊x⌋ : ℚ) + 1 := by
        have h2 : s ≤ x + 1020 / 2 ^ 24 := by linarith
        have h3 : (1020 : ℚ) / 2 ^ 24 < 1 := by norm_num
        linarith [hxint.symm.le]
      have h4 : ⌊s⌋ < ⌊x⌋ + 1 := by
        apply Int.floor_lt.mpr
        push_cast
        linarith
      omega
    exact ⟨hlow, hup, fun hne => absurd hxint hne⟩
  · have hm1 : (1 : ℚ) ≤ ((N % r : ℕ) : ℚ) := by exact_mod_cast hmpos
    have hmr : ((N % r : ℕ) : ℚ) ≤ (r : ℚ) - 1 := by
      have h1 : N % r < r := Nat.mod_lt _ (by omega)
      have h2 : N % r + 1 ≤ r := h1
      have h3 : ((N % r : ℕ) : ℚ) + 1 ≤ (r : ℚ) := by exact_mod_cast h2
      linarith
    have hfl : (⌊x⌋ : ℚ) + 1 / (r : ℚ) ≤ x := by
      rw [hfloorx, hfrac, Int.cast_natCast]
      have h1 : 1 / (r : ℚ) ≤ ((N % r : ℕ) : ℚ) / (r : ℚ) := by gcongr
      linarith
    have hfu : x ≤ (⌊x⌋ : ℚ) + 1 - 1 / (r : ℚ) := by
      rw [hfloorx, hfrac, Int.cast_natCast]
      have h1 : ((N % r : ℕ) : ℚ) / (r : ℚ) ≤ ((r : ℚ) - 1) / (r : ℚ) := by gcongr
      have h2 : ((r : ℚ) - 1) / (r : ℚ) = 1 - 1 / (r : ℚ) := by field_simp
      linarith
    have hexact : ⌊s⌋ = ⌊x⌋ := by
      have h1 : (⌊x⌋ : ℚ) ≤ s := by linarith
      have h2 : s < (⌊x⌋ : ℚ) + 1 := by linarith
      have h3 : ⌊x⌋ ≤ ⌊s⌋ := Int.le_floor.mpr h1
      have h4 : ⌊s⌋ < ⌊x⌋ + 1 := Int.floor_lt.mpr (by push_cast; linarith)
      omega
    exact ⟨hlow, hexact.le, fun _ => hexact⟩


lemma rf_7_15 : roundF32 ((7 : ℚ) / 15) = 15658735 * (2 : ℚ) ^ (-25 : ℤ) := by
  have hm : roundHalfEven (((7 : ℚ) / 15) / 2 ^ ((-2 : ℤ) - 23)) = 15658735 := by
    have h1 : ((7 : ℚ) / 15) / 2 ^ ((-2 : ℤ) - 23) = 234881024 / 15 := by
      norm_num
    rw [h1, roundHalfEven]
    norm_num
  have h := roundF32_eval ((7 : ℚ) / 15) (-2) 15658735 (by norm_num)
    (by norm_num) (by norm_num) hm
  rw [h]
  norm_num

lemma rf_mul20 : roundF32 ((15658735 * (2 : ℚ) ^ (-25 : ℤ)) * 20) =
    9786709 * (2 : ℚ) ^ (-20 : ℤ) := by
  have hm : roundHalfEven (((15658735 * (2 : ℚ) ^ (-25 : ℤ)) * 20) /
      2 ^ ((3 : ℤ) - 23)) = 9786709 := by
    have h1 : ((15658735 * (2 : ℚ) ^ (-25 : ℤ)) * 20) / 2 ^ ((3 : ℤ) - 23) =
        78293675 / 8 := by norm_num
    rw [h1, roundHalfEven]
    norm_num
  have h := roundF32_eval _ 3 9786709 (by norm_num) (by norm_num) (by norm_num) hm
  rw [h]
  norm_num

lemma rf_add20 : roundF32 ((20 : ℚ) + 9786709 * (2 : ℚ) ^ (-20 : ℤ)) =
    15379114 * (2 : ℚ) ^ (-19 : ℤ) := by
  have hm : roundHalfEven (((20 : ℚ) + 9786709 * (2 : ℚ) ^ (-20 : ℤ)) /
      2 ^ ((4 : ℤ) - 23)) = 15379114 := by
    have h1 : ((20 : ℚ) + 9786709 * (2 : ℚ) ^ (-20 : ℤ)) / 2 ^ ((4 : ℤ) - 23) =
        30758229 / 2 := by norm_num
    rw [h1, roundHalfEven]
    norm_num
  have h := roundF32_eval _ 4 15379114 (by norm_num) (by norm_num) (by norm_num) hm
  rw [h]
  norm_num

lemma f32interp_47 : f32interp 7 15 20 20 = 15379114 * (2 : ℚ) ^ (-19 : ℤ) := by
  unfold f32interp
  simp only [Nat.cast_ofNat]
  rw [rf_7_15, rf_mul20, rf_add20]

lemma cast_47 : castF32toU8 (15379114 * (2 : ℚ) ^ (-19 : ℤ)) = 29 := by
  unfold castF32toU8
  have h2 : (15379114 * (2 : ℚ) ^ (-19 : ℤ)) = 7689557 / 262144 := by norm_num
  have h1 : ⌊(15379114 * (2 : ℚ) ^ (-19 : ℤ))⌋ = 29 := by
    rw [h2]
    norm_num
  rw [h1]
  rfl

lemma rf_7_12 : roundF32 ((7 : ℚ) / 12) = 9786709 * (2 : ℚ) ^ (-24 : ℤ) := by
  have hm : roundHalfEven (((7 : ℚ) / 12) / 2 ^ ((-1 : ℤ) - 23)) = 9786709 := by
    have h1 : ((7 : ℚ) / 12) / 2 ^ ((-1 : ℤ) - 23) = 29360128 / 3 := by
      norm_num
    rw [h1, roundHalfEven]
    norm_num
  have h := roundF32_eval ((7 : ℚ) / 12) (-1) 9786709 (by norm_num)
    (by norm_num) (by norm_num) hm
  rw [h]
  norm_num

lemma rf_mul108 : roundF32 ((9786709 * (2 : ℚ) ^ (-24 : ℤ)) * 108) =
    16515071 * (2 : ℚ) ^ (-18 : ℤ) := by
  have hm : roundHalfEven (((9786709 * (2 : ℚ) ^ (-24 : ℤ)) * 108) /
      2 ^ ((5 : ℤ) - 23)) = 16515071 := by
    have h1 : ((9786709 * (2 : ℚ) ^ (-24 : ℤ)) * 108) / 2 ^ ((5 : ℤ) - 23) =
        1056964572 / 64 := by norm_num
    rw [h1, roundHalfEven]
    norm_num
  have h := roundF32_eval _ 5 16515071 (by norm_num) (by norm_num) (by norm_num) hm
  rw [h]
  norm_num

lemma rf_fix108 : roundF32 (16515071 * (2 : ℚ) ^ (-18 : ℤ)) =
    16515071 * (2 : ℚ) ^ (-18 : ℤ) := by
  have hl : Int.log 2 (16515071 * (2 : ℚ) ^ (-18 : ℤ)) = 5 :=
    intLog_eq 5 (by norm_num) (by norm_num) (by norm_num)
  apply roundF32_intScaled (by norm_num) 16515071
  rw [hl]
  norm_num

lemma f32interp_4752 : f32interp 7 12 108 0 = 16515071 * (2 : ℚ) ^ (-18 : ℤ) := by
  unfold f32interp
  simp only [Nat.cast_ofNat, Nat.cast_zero, zero_add]
  rw [rf_7_12, rf_mul108, rf_fix108]

lemma cast_4752 : castF32toU8 (16515071 * (2 : ℚ) ^ (-18 : ℤ)) = 62 := by
  unfold castF32toU8
  have h2 : (16515071 * (2 : ℚ) ^ (-18 : ℤ)) = 16515071 / 262144 := by norm_num
  have h1 : ⌊(16515071 * (2 : ℚ) ^ (-18 : ℤ))⌋ = 62 := by
    rw [h2]
    norm_num
  rw [h1]
  rfl

/-- One step of the interpolation loop body (src/daemon/src/main.rs lines
40-48).  The source guard `temp_range <= f32::EPSILON` holds for a
nonnegative integral `f32` exactly when that integer is zero, so it is
modelled as `u8sub t2 t1 = 0`; the interpolation expression
`f1 as f32 + (((ct - t1) as f32 / temp_range) * fan_range)` is `f32interp`
(one binary32 rounding per arithmetic operation, integer operands exact). -/
def interpSeg (t t1 f1 t2 f2 : Nat) : Nat :=
  if u8sub t2 t1 = 0 then f2
  else castF32toU8 (f32interp (u8sub t t1) (u8sub t2 t1) (u8sub f2 f1) f1)

/-- `slice::windows(2)` specialised to the shape the source consumes. -/
def windows2 {α : Type} : List α → List (α × α)
  | a :: b :: rest => (a, b) :: windows2 (b :: rest)
  | _ => []

/-- The `for window in curve.windows(2)` loop: return the interpolation of
the first window containing `t`, if any. -/
def scanWindows (t : Nat) : List ((Nat × Nat) × (Nat × Nat)) → Option Nat
  | [] => none
  | ((t1, f1), (t2, f2)) :: rest =>
    if t1 ≤ t ∧ t ≤ t2 then some (interpSeg t t1 f1 t2 f2)
    else scanWindows t rest

/-- `curve.last()` for the nonempty list `p :: rest`. -/
def lastOf (p : Nat × Nat) : List (Nat × Nat) → Nat × Nat
  | [] => p
  | q :: rest => lastOf q rest

/-- `calculate_fan_speed` (src/daemon/src/main.rs, lines 23-53). -/
def calculate_fan_speed (t : Nat) : List (Nat × Nat) → Nat
  | [] => 0
  | (ft, fd) :: rest =>
    if t ≤ ft then fd
    else if (lastOf (ft, fd) rest).1 ≤ t then (lastOf (ft, fd) rest).2
    else
      match scanWindows t (windows2 ((ft, fd) :: rest)) with
      | some d => d
      | none => fd

/-- The process-wide constant `FAN_CURVE` (src/daemon/src/main.rs line 21). -/
def FAN_CURVE : List (Nat × Nat) := [(40, 20), (55, 40), (70, 65), (85, 100)]

/-- Strictly increasing temperatures (the well-formedness the spec assumes). -/
abbrev TempsStrict (curve : List (Nat × Nat)) : Prop :=
  List.Chain' (fun a b => a.1 < b.1) curve

/-- Non-decreasing duties. -/
abbrev DutiesMono (curve : List (Nat × Nat)) : Prop :=
  List.Chain' (fun a b => a.2 ≤ b.2) curve

/-- Every control point fits in a `u8`, as the source's types force. -/
abbrev U8Bounded (curve : List (Nat × Nat)) : Prop :=
  ∀ p ∈ curve, p.1 ≤ 255 ∧ p.2 ≤ 255

/-- The exact linear interpolation the spec describes, written from the
spec's words (duty as a linear function of temperature between the
bracketing control points); used to compare the code's truncating
arithmetic against the specified real-valued interpolation. -/
def specInterp (t t1 f1 t2 f2 : ℚ) : ℚ :=
  f1 + ((t - t1) / (t2 - t1)) * (f2 - f1)

/-- C10: `calculate_fan_speed` on the empty curve table returns duty 0 for
every temperature; the function is total, with 0 as the fixed fallback for
the empty-table case. -/
theorem calculate_fan_speed_empty_curve :
    ∀ t : Nat, calculate_fan_speed t [] = 0 :=
  fun _ => rfl

/-!
### Interpolation lemmas

Under the u8 well-formedness bounds the wrapping subtractions are exact
and the 255-saturation never fires.  The rounded value stays within
[f1, f2]; at the right endpoint the arithmetic is exact; the accumulated
rounding error of the three operations is below 1020/2^24 < 1/255, which
pins the truncated result to the floor of the exact interpolation, or one
below it exactly when the exact interpolation is an integer.
-/

lemma u8sub_exact (a b : Nat) (hb : b ≤ a) (ha : a ≤ 255) :
    u8sub a b = a - b := by
  unfold u8sub; omega

lemma interpSeg_shape {t t1 f1 t2 f2 : Nat} (h12 : t1 < t2) (ht2 : t2 ≤ 255)
    (hff : f1 ≤ f2) (hf2 : f2 ≤ 255) (hl : t1 ≤ t) (hr : t ≤ t2) :
    interpSeg t t1 f1 t2 f2 =
      castF32toU8 (f32interp (t - t1) (t2 - t1) (f2 - f1) f1) := by
  have hteq : u8sub t2 t1 = t2 - t1 := u8sub_exact _ _ (le_of_lt h12) ht2
  have htteq : u8sub t t1 = t - t1 := u8sub_exact _ _ hl (le_trans hr ht2)
  have hfeq : u8sub f2 f1 = f2 - f1 := u8sub_exact _ _ hff hf2
  have hrne : ¬ u8sub t2 t1 = 0 := by omega
  unfold interpSeg
  rw [if_neg hrne, hteq, htteq, hfeq]

lemma interpSeg_bounds {t t1 f1 t2 f2 : Nat} (h12 : t1 < t2) (ht2 : t2 ≤ 255)
    (hff : f1 ≤ f2) (hf2 : f2 ≤ 255) (hl : t1 ≤ t) (hr : t ≤ t2) :
    f1 ≤ interpSeg t t1 f1 t2 f2 ∧ interpSeg t t1 f1 t2 f2 ≤ f2 := by
  rw [interpSeg_shape h12 ht2 hff hf2 hl hr]
  have hb := f32interp_bounds (t - t1) (t2 - t1) (f2 - f1) f1 (by omega)
    (by omega) (by omega)
  unfold castF32toU8
  have h1 : (f1 : ℤ) ≤ ⌊f32interp (t - t1) (t2 - t1) (f2 - f1) f1⌋ := by
    rw [Int.le_floor]; exact_mod_cast hb.1
  have h2 : ⌊f32interp (t - t1) (t2 - t1) (f2 - f1) f1⌋ ≤
      ((f1 + (f2 - f1) : ℕ) : ℤ) := by
    have h := Int.floor_mono hb.2
    rwa [Int.floor_natCast] at h
  refine ⟨by omega, by omega⟩

lemma interpSeg_at_right {t1 f1 t2 f2 : Nat} (h12 : t1 < t2) (ht2 : t2 ≤ 255)
    (hff : f1 ≤ f2) (hf2 : f2 ≤ 255) :
    interpSeg t2 t1 f1 t2 f2 = f2 := by
  rw [interpSeg_shape h12 ht2 hff hf2 (le_of_lt h12) le_rfl,
    f32interp_right (t2 - t1) (f2 - f1) f1 (by omega) (by omega) (by omega)]
  unfold castF32toU8
  rw [Int.floor_natCast, Int.toNat_natCast]
  omega

lemma castF32toU8_mono {q r : ℚ} (h : q ≤ r) : castF32toU8 q ≤ castF32toU8 r := by
  unfold castF32toU8
  have h1 := Int.toNat_le_toNat (Int.floor_mono h)
  omega

lemma interpSeg_mono {t t' t1 f1 t2 f2 : Nat} (h12 : t1 < t2) (ht2 : t2 ≤ 255)
    (hff : f1 ≤ f2) (hf2 : f2 ≤ 255) (hl : t1 ≤ t) (htt : t ≤ t') (hr : t' ≤ t2) :
    interpSeg t t1 f1 t2 f2 ≤ interpSeg t' t1 f1 t2 f2 := by
  rw [interpSeg_shape h12 ht2 hff hf2 hl (le_trans htt hr),
    interpSeg_shape h12 ht2 hff hf2 (le_trans hl htt) hr]
  exact castF32toU8_mono
    (f32interp_mono (t - t1) (t' - t1) (t2 - t1) (f2 - f1) f1 (by omega))

lemma interpSeg_band {t t1 f1 t2 f2 : Nat} (h12 : t1 < t2) (ht2 : t2 ≤ 255)
    (hff : f1 ≤ f2) (hf2 : f2 ≤ 255) (hl : t1 < t) (hr : t < t2) :
    Int.toNat (⌊specInterp (t : ℚ) t1 f1 t2 f2⌋ - 1) ≤ interpSeg t t1 f1 t2 f2 ∧
    interpSeg t t1 f1 t2 f2 ≤ Int.toNat ⌊specInterp (t : ℚ) t1 f1 t2 f2⌋ ∧
    (specInterp (t : ℚ) t1 f1 t2 f2 ≠ (⌊specInterp (t : ℚ) t1 f1 t2 f2⌋ : ℚ) →
      interpSeg t t1 f1 t2 f2 = Int.toNat ⌊specInterp (t : ℚ) t1 f1 t2 f2⌋) := by
  rw [interpSeg_shape h12 ht2 hff hf2 (le_of_lt hl) (le_of_lt hr)]
  have hx : specInterp (t : ℚ) t1 f1 t2 f2 =
      (f1 : ℚ) + ((t - t1 : ℕ) : ℚ) / ((t2 - t1 : ℕ) : ℚ) *
        ((f2 - f1 : ℕ) : ℚ) := by
    rw [specInterp, Nat.cast_sub (le_of_lt hl), Nat.cast_sub (le_of_lt h12),
      Nat.cast_sub hff]
  have hfl := f32interp_floor (t - t1) (t2 - t1) (f2 - f1) f1 (by omega)
    (by omega) (by omega) (by omega) (by omega)
  have hb := f32interp_bounds (t - t1) (t2 - t1) (f2 - f1) f1 (by omega)
    (by omega) (by omega)
  set s : ℚ := f32interp (t - t1) (t2 - t1) (f2 - f1) f1 with hsdef
  have hcast : castF32toU8 s = Int.toNat ⌊s⌋ := by
    unfold castF32toU8
    have h2 : ⌊s⌋ ≤ ((f1 + (f2 - f1) : ℕ) : ℤ) := by
      have h := Int.floor_mono hb.2
      rwa [Int.floor_natCast] at h
    omega
  have hxf : (0 : ℤ) ≤ ⌊specInterp (t : ℚ) t1 f1 t2 f2⌋ := by
    rw [hx]
    apply Int.floor_nonneg.mpr
    have hdr : (0 : ℚ) ≤ ((t - t1 : ℕ) : ℚ) / ((t2 - t1 : ℕ) : ℚ) := by positivity
    have hfr : (0 : ℚ) ≤ ((f2 - f1 : ℕ) : ℚ) := by positivity
    positivity
  rw [hcast, hx]
  refine ⟨Int.toNat_le_toNat hfl.1, ?_, ?_⟩
  · exact Int.toNat_le_toNat hfl.2.1
  · intro hne
    rw [hfl.2.2 hne]

/-!
### Structural behaviour on well-formed curves
-/

lemma cfs_below_first (t : Nat) (p : Nat × Nat) (rest : List (Nat × Nat))
    (h : t ≤ p.1) : calculate_fan_speed t (p :: rest) = p.2 := by
  obtain ⟨pt, pd⟩ := p
  simp only [calculate_fan_speed, if_pos h]

lemma cfs_single (t : Nat) (p : Nat × Nat) :
    calculate_fan_speed t [p] = p.2 := by
  obtain ⟨pt, pd⟩ := p
  simp only [calculate_fan_speed, lastOf, windows2, scanWindows]
  split
  · rfl
  · split
    · rfl
    · omega

lemma lastOf_temp_ge :
    ∀ (rest : List (Nat × Nat)) (p : Nat × Nat), TempsStrict (p :: rest) →
      p.1 ≤ (lastOf p rest).1
  | [], _, _ => le_rfl
  | q :: rs, p, h => by
    have h2 := List.chain'_cons.mp h
    exact le_trans (le_of_lt h2.1) (lastOf_temp_ge rs q h2.2)

lemma lastOf_temp_gt (rest : List (Nat × Nat)) (q r : Nat × Nat)
    (h : TempsStrict (q :: r :: rest)) : q.1 < (lastOf q (r :: rest)).1 := by
  have h2 := List.chain'_cons.mp h
  exact lt_of_lt_of_le h2.1 (lastOf_temp_ge rest r h2.2)

lemma mem_temp_gt :
    ∀ (rest : List (Nat × Nat)) (p q : Nat × Nat), TempsStrict (p :: rest) →
      q ∈ rest → p.1 < q.1
  | [], _, _, _, hq => absurd hq (List.not_mem_nil _)
  | r :: rs, p, q, h, hq => by
    have h2 := List.chain'_cons.mp h
    rcases List.mem_cons.mp hq with rfl | hq2
    · exact h2.1
    · exact lt_trans h2.1 (mem_temp_gt rs r q h2.2 hq2)

lemma windows2_fst_mem {α : Type} :
    ∀ (l : List α) (w : α × α), w ∈ windows2 l → w.1 ∈ l ∧ w.2 ∈ l
  | [], w, hw => absurd hw (by simp [windows2])
  | [_], w, hw => absurd hw (by simp [windows2])
  | a :: b :: rest, w, hw => by
    rw [windows2, List.mem_cons] at hw
    rcases hw with rfl | hw2
    · exact ⟨List.mem_cons_self _ _, List.mem_cons_of_mem _ (List.mem_cons_self _ _)⟩
    · have ih := windows2_fst_mem (b :: rest) w hw2
      exact ⟨List.mem_cons_of_mem _ ih.1, List.mem_cons_of_mem _ ih.2⟩

lemma windows2_rel {α : Type} (R : α → α → Prop) :
    ∀ (l : List α), List.Chain' R l → ∀ w ∈ windows2 l, R w.1 w.2
  | [], _, w, hw => absurd hw (by simp [windows2])
  | [_], _, w, hw => absurd hw (by simp [windows2])
  | a :: b :: rest, hc, w, hw => by
    have hc2 := List.chain'_cons.mp hc
    rw [windows2, List.mem_cons] at hw
    rcases hw with rfl | hw2
    · exact hc2.1
    · exact windows2_rel R (b :: rest) hc2.2 w hw2

lemma scanWindows_isSome :
    ∀ (rest : List (Nat × Nat)) (q : Nat × Nat) (t : Nat),
      TempsStrict (q :: rest) → q.1 ≤ t → t < (lastOf q rest).1 →
      ∃ d, scanWindows t (windows2 (q :: rest)) = some d
  | [], q, t, _, hl, hr => absurd (lt_of_le_of_lt hl hr) (lt_irrefl _)
  | r :: rs, q, t, hc, hl, hr => by
    obtain ⟨qt, qd⟩ := q
    obtain ⟨rt, rd⟩ := r
    by_cases htr : t ≤ rt
    · refine ⟨interpSeg t qt qd rt rd, ?_⟩
      rw [windows2, scanWindows, if_pos ⟨hl, htr⟩]
    · push_neg at htr
      have hc2 := List.chain'_cons.mp hc
      obtain ⟨d, hd⟩ :=
        scanWindows_isSome rs (rt, rd) t hc2.2 (le_of_lt htr) hr
      refine ⟨d, ?_⟩
      rw [windows2, scanWindows, if_neg (by omega), hd]

lemma cfs_first_window (t : Nat) (p q : Nat × Nat) (rest : List (Nat × Nat))
    (hc : TempsStrict (p :: q :: rest)) (ht1 : p.1 < t) (ht2 : t < q.1) :
    calculate_fan_speed t (p :: q :: rest) = interpSeg t p.1 p.2 q.1 q.2 := by
  obtain ⟨pt, pd⟩ := p
  obtain ⟨qt, qd⟩ := q
  have hc2 : TempsStrict ((qt, qd) :: rest) := (List.chain'_cons.mp hc).2
  have hlastge : qt ≤ (lastOf (qt, qd) rest).1 := lastOf_temp_ge rest (qt, qd) hc2
  have h1 : ¬ t ≤ pt := by simp at ht1; omega
  have h2 : ¬ (lastOf (qt, qd) rest).1 ≤ t := by simp at ht2; omega
  simp only [calculate_fan_speed, lastOf, if_neg h1, if_neg h2, windows2,
    scanWindows]
  rw [if_pos ⟨by simp at ht1; omega, by simp at ht2; omega⟩]

lemma cfs_at_last (t : Nat) (p : Nat × Nat) (rest : List (Nat × Nat))
    (hc : TempsStrict (p :: rest)) (hlt : (lastOf p rest).1 ≤ t) :
    calculate_fan_speed t (p :: rest) = (lastOf p rest).2 := by
  obtain ⟨pt, pd⟩ := p
  by_cases hp : t ≤ pt
  · cases rest with
    | nil => rw [cfs_single]; rfl
    | cons r rs =>
      exfalso
      have h1 : pt < (lastOf (pt, pd) (r :: rs)).1 := lastOf_temp_gt rs (pt, pd) r hc
      omega
  · simp only [calculate_fan_speed, if_neg hp, if_pos hlt]

lemma cfs_peel (t : Nat) (p q : Nat × Nat) (rest : List (Nat × Nat))
    (hc : TempsStrict (p :: q :: rest)) (hd : DutiesMono (p :: q :: rest))
    (hb : U8Bounded (p :: q :: rest)) (ht : q.1 ≤ t) :
    calculate_fan_speed t (p :: q :: rest) = calculate_fan_speed t (q :: rest) := by
  obtain ⟨pt, pd⟩ := p
  obtain ⟨qt, qd⟩ := q
  have hc1 := List.chain'_cons.mp hc
  have hd1 := List.chain'_cons.mp hd
  have hbq : qt ≤ 255 ∧ qd ≤ 255 :=
    hb (qt, qd) (List.mem_cons_of_mem _ (List.mem_cons_self _ _))
  have hqt : qt ≤ t := ht
  have hpq : pt < qt := hc1.1
  have hdq : pd ≤ qd := hd1.1
  have hpt : ¬ t ≤ pt := by omega
  by_cases hlt : (lastOf (qt, qd) rest).1 ≤ t
  · have hL : calculate_fan_speed t ((pt, pd) :: (qt, qd) :: rest) =
        (lastOf (qt, qd) rest).2 := by
      simp only [calculate_fan_speed, lastOf, if_neg hpt, if_pos hlt]
    by_cases hq2 : t ≤ qt
    · have hteq : t = qt := le_antisymm hq2 hqt
      cases rest with
      | nil =>
        rw [hL, cfs_single]; rfl
      | cons r rs =>
        exfalso
        have h5 : qt < (lastOf (qt, qd) (r :: rs)).1 :=
          lastOf_temp_gt rs (qt, qd) r hc1.2
        omega
    · rw [hL]
      simp only [calculate_fan_speed, if_neg hq2, if_pos hlt]
  · push_neg at hlt
    by_cases hq2 : t ≤ qt
    · have hteq : t = qt := le_antisymm hq2 hqt
      have hLHS : calculate_fan_speed t ((pt, pd) :: (qt, qd) :: rest) =
          interpSeg t pt pd qt qd := by
        simp only [calculate_fan_speed, lastOf, if_neg hpt,
          if_neg (not_le.mpr hlt), windows2, scanWindows]
        rw [if_pos ⟨by omega, hq2⟩]
      rw [hLHS, hteq, interpSeg_at_right hpq hbq.1 hdq hbq.2,
        cfs_below_first _ _ _ (le_refl (qt, qd).1)]
    · push_neg at hq2
      obtain ⟨d, hd2⟩ := scanWindows_isSome rest (qt, qd) t hc1.2 (le_of_lt hq2) hlt
      have hLHS : calculate_fan_speed t ((pt, pd) :: (qt, qd) :: rest) = d := by
        simp only [calculate_fan_speed, lastOf, if_neg hpt,
          if_neg (not_le.mpr hlt), windows2, scanWindows]
        rw [if_neg (by omega), hd2]
      have hRHS : calculate_fan_speed t ((qt, qd) :: rest) = d := by
        simp only [calculate_fan_speed, if_neg (not_le.mpr hq2),
          if_neg (not_le.mpr hlt)]
        rw [hd2]
      rw [hLHS, hRHS]

lemma cfs_head_le :
    ∀ (rest : List (Nat × Nat)) (p : Nat × Nat) (t : Nat),
      TempsStrict (p :: rest) → DutiesMono (p :: rest) → U8Bounded (p :: rest) →
      p.2 ≤ calculate_fan_speed t (p :: rest)
  | [], p, t, _, _, _ => le_of_eq (cfs_single t p).symm
  | q :: rs, p, t, hc, hd, hb => by
    have hc1 := List.chain'_cons.mp hc
    have hd1 := List.chain'_cons.mp hd
    have hb1 : U8Bounded (q :: rs) := fun y hy => hb y (List.mem_cons_of_mem _ hy)
    by_cases hq : q.1 ≤ t
    · rw [cfs_peel t p q rs hc hd hb hq]
      exact le_trans hd1.1 (cfs_head_le rs q t hc1.2 hd1.2 hb1)
    · push_neg at hq
      by_cases hp : t ≤ p.1
      · exact le_of_eq (cfs_below_first t p (q :: rs) hp).symm
      · push_neg at hp
        rw [cfs_first_window t p q rs hc hp hq]
        have hbq := hb q (List.mem_cons_of_mem _ (List.mem_cons_self _ _))
        exact (interpSeg_bounds hc1.1 hbq.1 hd1.1 hbq.2 (le_of_lt hp)
          (le_of_lt hq)).1

lemma cfs_at_mem :
    ∀ (curve : List (Nat × Nat)), TempsStrict curve → DutiesMono curve →
      U8Bounded curve → ∀ p ∈ curve, calculate_fan_speed p.1 curve = p.2
  | [], _, _, _, _, hp => absurd hp (List.not_mem_nil _)
  | x :: rest, hc, hd, hb, p, hp => by
    rcases List.mem_cons.mp hp with rfl | hmem
    · exact cfs_below_first _ _ _ le_rfl
    · cases rest with
      | nil => exact absurd hmem (List.not_mem_nil _)
      | cons q rs =>
        have hc1 := List.chain'_cons.mp hc
        have hd1 := List.chain'_cons.mp hd
        have hb1 : U8Bounded (q :: rs) := fun y hy => hb y (List.mem_cons_of_mem _ hy)
        have hq : q.1 ≤ p.1 := by
          rcases List.mem_cons.mp hmem with heq | hmem2
          · rw [heq]
          · exact le_of_lt (mem_temp_gt rs q p hc1.2 hmem2)
        rw [cfs_peel p.1 x q rs hc hd hb hq]
        exact cfs_at_mem (q :: rs) hc1.2 hd1.2 hb1 p hmem

lemma cfs_window :
    ∀ (curve : List (Nat × Nat)), TempsStrict curve → DutiesMono curve →
      U8Bounded curve → ∀ (t : Nat) (w : (Nat × Nat) × (Nat × Nat)),
        w ∈ windows2 curve → w.1.1 < t → t < w.2.1 →
        calculate_fan_speed t curve = interpSeg t w.1.1 w.1.2 w.2.1 w.2.2
  | [], _, _, _, _, w, hw, _, _ => absurd hw (by simp [windows2])
  | [_], _, _, _, _, w, hw, _, _ => absurd hw (by simp [windows2])
  | x :: q :: rs, hc, hd, hb, t, w, hw, hl, hr => by
    rw [windows2, List.mem_cons] at hw
    rcases hw with rfl | hw2
    · exact cfs_first_window t x q rs hc hl hr
    · have hc1 := List.chain'_cons.mp hc
      have hd1 := List.chain'_cons.mp hd
      have hb1 : U8Bounded (q :: rs) := fun y hy => hb y (List.mem_cons_of_mem _ hy)
      have hmem := (windows2_fst_mem (q :: rs) w hw2).1
      have hq : q.1 ≤ w.1.1 := by
        rcases List.mem_cons.mp hmem with heq | hmem2
        · rw [heq]
        · exact le_of_lt (mem_temp_gt rs q w.1 hc1.2 hmem2)
      rw [cfs_peel t x q rs hc hd hb (le_trans hq (le_of_lt hl))]
      exact cfs_window (q :: rs) hc1.2 hd1.2 hb1 t w hw2 hl hr

/-- C5: on every curve with strictly increasing temperatures, non-decreasing
duties and u8-bounded control points (the bound the source's `u8` types
force), `calculate_fan_speed` is monotone non-decreasing in temperature. -/
theorem calculate_fan_speed_monotone :
    ∀ (curve : List (Nat × Nat)), TempsStrict curve → DutiesMono curve →
      U8Bounded curve → ∀ (t t' : Nat), t ≤ t' →
      calculate_fan_speed t curve ≤ calculate_fan_speed t' curve
  | [], _, _, _, _, _, _ => le_rfl
  | [x], _, _, _, t, t', _ => by
    rw [cfs_single, cfs_single]
  | x :: q :: rs, hc, hd, hb, t, t', htt => by
    have hc1 := List.chain'_cons.mp hc
    have hd1 := List.chain'_cons.mp hd
    have hb1 : U8Bounded (q :: rs) := fun y hy => hb y (List.mem_cons_of_mem _ hy)
    have hbq := hb q (List.mem_cons_of_mem _ (List.mem_cons_self _ _))
    by_cases h1 : t' ≤ x.1
    · rw [cfs_below_first t x _ (le_trans htt h1), cfs_below_first t' x _ h1]
    · push_neg at h1
      by_cases h2 : q.1 ≤ t
      · rw [cfs_peel t x q rs hc hd hb h2,
          cfs_peel t' x q rs hc hd hb (le_trans h2 htt)]
        exact calculate_fan_speed_monotone (q :: rs) hc1.2 hd1.2 hb1 t t' htt
      · push_neg at h2
        by_cases h3 : t ≤ x.1
        · rw [cfs_below_first t x _ h3]
          exact cfs_head_le (q :: rs) x t' hc hd hb
        · push_neg at h3
          rw [cfs_first_window t x q rs hc h3 h2]
          by_cases h4 : t' < q.1
          · rw [cfs_first_window t' x q rs hc (lt_of_lt_of_le h3 htt) h4]
            exact interpSeg_mono hc1.1 hbq.1 hd1.1 hbq.2 (le_of_lt h3) htt
              (le_of_lt h4)
          · push_neg at h4
            have hub := (interpSeg_bounds hc1.1 hbq.1 hd1.1 hbq.2 (le_of_lt h3)
              (le_of_lt h2)).2
            have hlb := cfs_head_le rs q t' hc1.2 hd1.2 hb1
            rw [cfs_peel t' x q rs hc hd hb h4]
            exact le_trans hub hlb

/-- C5 witness: the monotonicity theorem applied to the daemon's own
`FAN_CURVE` at temperatures 47 and 60. -/
theorem calculate_fan_speed_monotone_witness :
    calculate_fan_speed 47 FAN_CURVE ≤ calculate_fan_speed 60 FAN_CURVE :=
  calculate_fan_speed_monotone FAN_CURVE (by simp [FAN_CURVE])
    (by simp [FAN_CURVE]) (by decide) 47 60 (by decide)

/-- Concrete evaluation of one interpolation step on the daemon's own
curve: at t = 47 in the window (40,20)-(55,40) the code computes
fl32(fl32(fl32(7/15) * 20) + 20) = 15379114/2^19 and truncates to 29. -/
lemma interpSeg_47 : interpSeg 47 40 20 55 40 = 29 := by
  have hu1 : u8sub 55 40 = 15 := by decide
  have hu2 : u8sub 47 40 = 7 := by decide
  have hu3 : u8sub 40 20 = 20 := by decide
  unfold interpSeg
  rw [hu1, hu2, hu3, if_neg (by decide), f32interp_47, cast_47]

/-- The binary32 rounding is observable: on the curve [(40,0),(52,108)] at
t = 47 the code computes fl32(fl32(fl32(7/12) * 108) + 0) = 16515071/2^18
= 62.99999618... and truncates to 62, one below the floor 63 of the exact
interpolation 7/12 * 108 = 63. -/
lemma interpSeg_rounds_below_floor :
    interpSeg 47 40 0 52 108 = 62 ∧
      Int.toNat ⌊specInterp 47 40 0 52 108⌋ = 63 := by
  constructor
  · have hu1 : u8sub 52 40 = 12 := by decide
    have hu2 : u8sub 47 40 = 7 := by decide
    have hu3 : u8sub 108 0 = 108 := by decide
    unfold interpSeg
    rw [hu1, hu2, hu3, if_neg (by decide), f32interp_4752, cast_4752]
  · norm_num [specInterp]
    decide

/-- C4 counterexample: on the spec's example curve the bracketing pair for
temperature 47 is (40,20),(55,40), whose exact linear interpolation is
88/3, but the code returns the truncated value 29 — and the midpoint
temperature 47.5 named by the claim is not even an input of the function,
whose temperatures are 8-bit integers. -/
theorem calculate_fan_speed_not_exact_interp :
    calculate_fan_speed 47 FAN_CURVE = 29 ∧
      ((calculate_fan_speed 47 FAN_CURVE : ℚ) ≠
        specInterp 47 40 20 55 40) := by
  have h : calculate_fan_speed 47 FAN_CURVE = 29 := by
    have h1 := cfs_window FAN_CURVE (by simp [FAN_CURVE]) (by simp [FAN_CURVE])
      (by decide) 47 ((40, 20), (55, 40)) (by decide) (by decide) (by decide)
    rw [h1]
    exact interpSeg_47
  refine ⟨h, ?_⟩
  rw [h, specInterp]
  norm_num

/-- C4 (amended): on every curve with strictly increasing temperatures,
non-decreasing duties and u8-bounded control points: at or below the first
point's temperature the first duty is returned; at or above the last
point's temperature the last duty; at any control point's temperature
exactly that point's duty; and strictly inside a bracketing consecutive
pair the floor (truncation toward zero) of the exact linear interpolation
of duty whenever that interpolation is not an integer, and in general
either that floor or one below it (the three binary32 roundings can land
the f32 value just below an integer-valued exact interpolation, as on the
curve [(40,0),(52,108)] at t = 47, where the code yields 62 against the
exact 63).  On the example curve this gives 30 ↦ 20, 40 ↦ 20, 47 ↦ 29,
48 ↦ 30, 85 ↦ 100, 95 ↦ 100. -/
theorem calculate_fan_speed_piecewise (curve : List (Nat × Nat))
    (hc : TempsStrict curve) (hd : DutiesMono curve) (hb : U8Bounded curve) :
    (∀ t p rest, curve = p :: rest → t ≤ p.1 →
      calculate_fan_speed t curve = p.2) ∧
    (∀ t p rest, curve = p :: rest → (lastOf p rest).1 ≤ t →
      calculate_fan_speed t curve = (lastOf p rest).2) ∧
    (∀ p ∈ curve, calculate_fan_speed p.1 curve = p.2) ∧
    (∀ t w, w ∈ windows2 curve → w.1.1 < t → t < w.2.1 →
      Int.toNat (⌊specInterp (t : ℚ) w.1.1 w.1.2 w.2.1 w.2.2⌋ - 1) ≤
          calculate_fan_speed t curve ∧
        calculate_fan_speed t curve ≤
          Int.toNat ⌊specInterp (t : ℚ) w.1.1 w.1.2 w.2.1 w.2.2⌋ ∧
        (specInterp (t : ℚ) w.1.1 w.1.2 w.2.1 w.2.2 ≠
            (⌊specInterp (t : ℚ) w.1.1 w.1.2 w.2.1 w.2.2⌋ : ℚ) →
          calculate_fan_speed t curve =
            Int.toNat ⌊specInterp (t : ℚ) w.1.1 w.1.2 w.2.1 w.2.2⌋)) := by
  refine ⟨?_, ?_, ?_, ?_⟩
  · rintro t p rest rfl h
    exact cfs_below_first t p rest h
  · rintro t p rest rfl h
    exact cfs_at_last t p rest hc h
  · exact cfs_at_mem curve hc hd hb
  · intro t w hw hl hr
    have h1 := cfs_window curve hc hd hb t w hw hl hr
    have hrel : w.1.1 < w.2.1 := windows2_rel _ curve hc w hw
    have hdrel : w.1.2 ≤ w.2.2 := windows2_rel _ curve hd w hw
    have hmem := windows2_fst_mem curve w hw
    have hb2 := hb w.2 hmem.2
    rw [h1]
    exact interpSeg_band hrel hb2.1 hdrel hb2.2 hl hr

/-- C4 witness: the amended policy theorem applied to the example curve:
its first clause evaluates 30 ↦ 20, its last clause 95 ↦ 100, its
control-point clause 55 ↦ 40, and its interpolation clause confirms
47 ↦ ⌊88/3⌋ = 29 (the exact interpolation 88/3 is not an integer, so the
exceptional one-below case is excluded here). -/
theorem calculate_fan_speed_piecewise_witness :
    calculate_fan_speed 30 FAN_CURVE = 20 ∧
      calculate_fan_speed 95 FAN_CURVE = 100 ∧
      calculate_fan_speed 55 FAN_CURVE = 40 ∧
      calculate_fan_speed 47 FAN_CURVE =
        Int.toNat ⌊specInterp 47 40 20 55 40⌋ := by
  have h := calculate_fan_speed_piecewise FAN_CURVE (by simp [FAN_CURVE])
    (by simp [FAN_CURVE]) (by decide)
  refine ⟨h.1 30 (40, 20) [(55, 40), (70, 65), (85, 100)] rfl (by decide),
    h.2.1 95 (40, 20) [(55, 40), (70, 65), (85, 100)] rfl (by decide),
    h.2.2.1 (55, 40) (by decide), ?_⟩
  have h4 := h.2.2.2 47 ((40, 20), (55, 40)) (by decide) (by decide) (by decide)
  exact h4.2.2 (by norm_num [specInterp])

/-!
## Lighting device driver (src/daemon/src/keyboard.rs)

The USB device is modelled by an oracle giving the outcome of the device
lookup, the interface claim, and each transfer in program order.  The two
driver functions are compiled to their `Result` plus the ordered list of
primitive USB actions they perform; `stepUsb` interprets those actions
over the claim/kernel-driver state of interface 3.  Release on the error
paths is the behaviour of the `rusb` library, part of the source's
language/library semantics: every early `?` return drops the
`DeviceHandle`, whose `Drop` releases all interfaces claimed through it,
and with `set_auto_detach_kernel_driver(true)` each release reattaches
the kernel driver that the claim detached.
-/

/-- Brightness scaling of one colour channel (keyboard.rs lines 44-47):
`((channel as u16) * (brightness.min(100) as u16) / 100) as u8`.  The u16
product of a u8 channel and a capped brightness is at most 25500, so only
the final `as u8` cast's mod-256 truncation is modelled. -/
def scale_channel (c brightness : Nat) : Nat :=
  ((c * min brightness 100) / 100) % 256

/-- Primitive USB actions, in program order. -/
inductive UsbAction : Type
  | setAutoDetach (b : Bool)
  | claim
  | control (payload : List Nat)
  | interrupt (payload : List Nat)
  | release
  | dropHandle
deriving DecidableEq

/-- Claim/kernel-driver state of USB interface 3. -/
structure UsbState : Type where
  claimed : Bool
  kernelAttached : Bool
  autoDetach : Bool
deriving DecidableEq

/-- Before the operation: interface unclaimed, kernel driver bound. -/
def initUsbState : UsbState := ⟨false, true, false⟩

/-- Effect of one action.  `claim` detaches the kernel driver when
auto-detach is set, `release` reattaches it, and dropping the handle
releases any interface still claimed (rusb `DeviceHandle::drop`). -/
def stepUsb (s : UsbState) : UsbAction → UsbState
  | .setAutoDetach b => { s with autoDetach := b }
  | .claim =>
    { s with claimed := true,
             kernelAttached := if s.autoDetach then false else s.kernelAttached }
  | .control _ => s
  | .interrupt _ => s
  | .release =>
    { s with claimed := false,
             kernelAttached := if s.autoDetach then true else s.kernelAttached }
  | .dropHandle =>
    if s.claimed then
      { s with claimed := false,
               kernelAttached := if s.autoDetach then true else s.kernelAttached }
    else s

def runUsb (s : UsbState) : List UsbAction → UsbState
  | [] => s
  | a :: rest => runUsb (stepUsb s a) rest

/-- Outcomes the USB stack can give: device lookup, interface claim, and
the i-th transfer of the operation. -/
structure UsbOracle : Type where
  deviceFound : Bool
  claimOk : Bool
  transferOk : Nat → Bool

/-- Attempt planned transfer actions in order, stopping at the first
failure; returns whether all succeeded together with every transfer
actually attempted (the failing one included). -/
def attemptTransfers (o : UsbOracle) : Nat → List UsbAction → Bool × List UsbAction
  | _, [] => (true, [])
  | i, a :: rest =>
    if o.transferOk i then
      ((attemptTransfers o (i + 1) rest).1, a :: (attemptTransfers o (i + 1) rest).2)
    else (false, [a])

/-- `slice::chunks(n)` for `n > 0`; the source only calls it with 4 and
64 (`chunks` of size 0 panics in Rust and is unreachable). -/
def chunksList {α : Type} : Nat → List α → List (List α)
  | _, [] => []
  | 0, _ :: _ => []
  | n + 1, x :: xs =>
    (x :: xs).take (n + 1) :: chunksList (n + 1) ((x :: xs).drop (n + 1))
termination_by _ l => l.length
decreasing_by simp; omega

/-- The 8-byte init packet of the colour subsystem (keyboard.rs line 40). -/
def colorInitPayload : List Nat := [0x12, 0, 0, 0x08, 0, 0, 0, 0xe5]

/-- The 8-byte commit/apply packet (keyboard.rs line 60). -/
def colorApplyPayload : List Nat := [0x08, 0x02, 0x33, 0x05, 0x32, 0x08, 0x01, 0x82]

/-- The 8-byte init packet of the animation subsystem (keyboard.rs line 83). -/
def animInitPayload : List Nat := [0xb1, 0, 0, 0, 0, 0, 0, 0x4e]

/-- The 1024-byte colour buffer: 256 four-byte zone records
`[0, scaled r, scaled g, scaled b]` (keyboard.rs lines 43-54). -/
def color_data (r g b brightness : Nat) : List Nat :=
  List.flatten (List.replicate 256
    [0, scale_channel r brightness, scale_channel g brightness,
      scale_channel b brightness])

/-- The transfer sequence of `set_global_color`: init control packet, the
colour buffer in 64-byte interrupt chunks, then the apply control packet. -/
def colorTransferPlan (r g b brightness : Nat) : List UsbAction :=
  UsbAction.control colorInitPayload ::
    ((chunksList 64 (color_data r g b brightness)).map UsbAction.interrupt ++
      [UsbAction.control colorApplyPayload])

/-- `set_global_color` (keyboard.rs lines 28-65), compiled to its result
and the ordered USB actions it performs. -/
def set_global_color (o : UsbOracle) (r g b brightness : Nat) :
    Except String Unit × List UsbAction :=
  if o.deviceFound = false then
    (Except.error "Could not find Acer USB Keyboard! Is the Daemon running as root?",
      [])
  else if o.claimOk = false then
    (Except.error "USB claim failed",
      [UsbAction.setAutoDetach true, UsbAction.dropHandle])
  else if (attemptTransfers o 0 (colorTransferPlan r g b brightness)).1 then
    (Except.ok (),
      UsbAction.setAutoDetach true :: UsbAction.claim ::
        ((attemptTransfers o 0 (colorTransferPlan r g b brightness)).2 ++
          [UsbAction.release, UsbAction.dropHandle]))
  else
    (Except.error "USB control write failed",
      UsbAction.setAutoDetach true :: UsbAction.claim ::
        ((attemptTransfers o 0 (colorTransferPlan r g b brightness)).2 ++
          [UsbAction.dropHandle]))

/-- `supported_effects` (keyboard.rs lines 13-26). -/
def supported_effects : List String :=
  ["neon", "wave", "breath", "rainbow", "reactive", "ripple", "starlight",
    "rain", "fire", "aurora"]

/-- The per-effect (opcode, direction) table of `effect_payload`
(keyboard.rs lines 94-112). -/
def effect_code : String → Option (Nat × Nat)
  | "neon" => some (0x08, 0x01)
  | "wave" => some (0x03, 0x02)
  | "breath" => some (0x02, 0x01)
  | "rainbow" => some (0x04, 0x01)
  | "reactive" => some (0x05, 0x01)
  | "ripple" => some (0x06, 0x01)
  | "starlight" => some (0x07, 0x01)
  | "rain" => some (0x09, 0x01)
  | "fire" => some (0x0A, 0x01)
  | "aurora" => some (0x0B, 0x01)
  | _ => none

/-- `effect_payload` (keyboard.rs lines 93-115). -/
def effect_payload (effect : String) (speed brightness : Nat) :
    Except String (List Nat) :=
  match effect_code effect with
  | some (code, dir) =>
    Except.ok [0x08, 0x02, code, 0x01, brightness, speed, dir, 0x9b]
  | none =>
    Except.error ("Unknown animation " ++ effect ++ ". Supported: " ++
      String.intercalate ", " supported_effects)

/-- `to_ascii_lowercase`: ASCII-only lowering of each character, which is
exactly what `Char.toLower` performs. -/
def ascii_lowercase (s : String) : String :=
  String.mk (s.data.map Char.toLower)

/-- `set_animation` (keyboard.rs lines 67-91), compiled to its result and
the ordered USB actions it performs.  Faithful to the source's order: the
device is opened, the interface claimed and the animation-init control
packet sent before `effect_payload` validates the effect name. -/
def set_animation (o : UsbOracle) (effect : String) (speed brightness : Nat) :
    Except String Unit × List UsbAction :=
  if o.deviceFound = false then
    (Except.error "Could not find Acer USB Keyboard!", [])
  else if o.claimOk = false then
    (Except.error "USB claim failed",
      [UsbAction.setAutoDetach true, UsbAction.dropHandle])
  else if o.transferOk 0 = false then
    (Except.error "USB control write failed",
      [UsbAction.setAutoDetach true, UsbAction.claim,
        UsbAction.control animInitPayload, UsbAction.dropHandle])
  else
    match effect_payload (ascii_lowercase effect) (min 10 (max 1 speed)) (min brightness 100) with
    | Except.error e =>
      (Except.error e,
        [UsbAction.setAutoDetach true, UsbAction.claim,
          UsbAction.control animInitPayload, UsbAction.dropHandle])
    | Except.ok payload =>
      if o.transferOk 1 = false then
        (Except.error "USB control write failed",
          [UsbAction.setAutoDetach true, UsbAction.claim,
            UsbAction.control animInitPayload, UsbAction.control payload,
            UsbAction.dropHandle])
      else
        (Except.ok (),
          [UsbAction.setAutoDetach true, UsbAction.claim,
            UsbAction.control animInitPayload, UsbAction.control payload,
            UsbAction.release, UsbAction.dropHandle])

/-- The fully healthy device: found, claim succeeds, every transfer ok. -/
def allOkUsb : UsbOracle := ⟨true, true, fun _ => true⟩

/-- C7: the colour-channel scaling is exactly the integer computation
channel × min(brightness, 100) / 100: the u16 product cannot overflow and
the final u8 cast is the identity on the result; scaling 200 by 50 gives
100, by 0 gives 0, and brightness 100 is the identity on every channel. -/
theorem scale_channel_exact :
    (∀ c b : Nat, c ≤ 255 → scale_channel c b = c * min b 100 / 100) ∧
    (∀ c : Nat, c ≤ 255 → scale_channel c 100 = c) ∧
    scale_channel 200 50 = 100 ∧ scale_channel 200 0 = 0 := by
  have hgen : ∀ c b : Nat, c ≤ 255 → scale_channel c b = c * min b 100 / 100 := by
    intro c b hc
    unfold scale_channel
    have h1 : c * min b 100 ≤ 255 * 100 := Nat.mul_le_mul hc (min_le_right _ _)
    omega
  refine ⟨hgen, ?_, by decide, by decide⟩
  intro c hc
  rw [hgen c 100 hc]
  simp

/-- C7 witness: the scaling theorem instantiated at channel 200 with
brightness 50 and at channel 123 with full brightness. -/
theorem scale_channel_exact_witness :
    (200 : Nat) ≤ 255 ∧ scale_channel 200 50 = 200 * min 50 100 / 100 ∧
      (123 : Nat) ≤ 255 ∧ scale_channel 123 100 = 123 :=
  ⟨by decide, scale_channel_exact.1 200 50 (by decide), by decide,
    scale_channel_exact.2.1 123 (by decide)⟩

/-!
### Claim/release discipline
-/

/-- An action that only talks to the device and leaves the claim state
unchanged. -/
def IsTransfer : UsbAction → Prop
  | .control _ => True
  | .interrupt _ => True
  | _ => False

lemma stepUsb_transfer (s : UsbState) (a : UsbAction) (h : IsTransfer a) :
    stepUsb s a = s := by
  cases a <;> first | rfl | exact h.elim

lemma runUsb_append (l1 l2 : List UsbAction) :
    ∀ s, runUsb s (l1 ++ l2) = runUsb (runUsb s l1) l2 := by
  induction l1 with
  | nil => intro s; rfl
  | cons a rest ih =>
    intro s
    simp only [List.cons_append, runUsb]
    exact ih _

lemma runUsb_transfers :
    ∀ (l : List UsbAction), (∀ a ∈ l, IsTransfer a) → ∀ s, runUsb s l = s := by
  intro l
  induction l with
  | nil => intro _ _; rfl
  | cons a rest ih =>
    intro h s
    rw [runUsb, stepUsb_transfer s a (h a (List.mem_cons_self _ _))]
    exact ih (fun x hx => h x (List.mem_cons_of_mem _ hx)) s

lemma attemptTransfers_preserve (o : UsbOracle) :
    ∀ (l : List UsbAction) (i : Nat), (∀ a ∈ l, IsTransfer a) →
      ∀ a ∈ (attemptTransfers o i l).2, IsTransfer a := by
  intro l
  induction l with
  | nil => intro i _ a ha; exact absurd ha (List.not_mem_nil _)
  | cons x rest ih =>
    intro i h a ha
    rw [attemptTransfers] at ha
    by_cases ht : o.transferOk i
    · rw [if_pos ht] at ha
      rcases List.mem_cons.mp ha with rfl | ha2
      · exact h a (List.mem_cons_self _ _)
      · exact ih (i + 1) (fun y hy => h y (List.mem_cons_of_mem _ hy)) a ha2
    · rw [if_neg ht] at ha
      rcases List.mem_cons.mp ha with rfl | ha2
      · exact h a (List.mem_cons_self _ _)
      · exact absurd ha2 (List.not_mem_nil _)

lemma colorPlan_transfers (r g b brightness : Nat) :
    ∀ a ∈ colorTransferPlan r g b brightness, IsTransfer a := by
  intro a ha
  rw [colorTransferPlan, List.mem_cons] at ha
  rcases ha with rfl | ha2
  · trivial
  · rw [List.mem_append] at ha2
    rcases ha2 with ha3 | ha3
    · obtain ⟨p, _, rfl⟩ := List.mem_map.mp ha3
      trivial
    · rcases List.mem_cons.mp ha3 with rfl | h4
      · trivial
      · exact absurd h4 (List.not_mem_nil _)

/-- C1: under every oracle outcome — device missing, claim failure, any
mid-sequence transfer failure, or full success — both lighting operations
finish with USB interface 3 unclaimed and the kernel driver reattached:
no return path, `Ok` or `Err`, leaves the interface claimed. -/
theorem usb_interface_always_released (o : UsbOracle) (r g b brightness : Nat)
    (effect : String) (speed : Nat) :
    ((runUsb initUsbState (set_global_color o r g b brightness).2).claimed = false ∧
      (runUsb initUsbState (set_global_color o r g b brightness).2).kernelAttached = true) ∧
    ((runUsb initUsbState (set_animation o effect speed brightness).2).claimed = false ∧
      (runUsb initUsbState (set_animation o effect speed brightness).2).kernelAttached = true) := by
  constructor
  · rw [set_global_color]
    by_cases h1 : o.deviceFound = false
    · rw [if_pos h1]
      exact ⟨rfl, rfl⟩
    · rw [if_neg h1]
      by_cases h2 : o.claimOk = false
      · rw [if_pos h2]
        exact ⟨rfl, rfl⟩
      · rw [if_neg h2]
        have htr : ∀ a ∈ (attemptTransfers o 0 (colorTransferPlan r g b brightness)).2,
            IsTransfer a :=
          attemptTransfers_preserve o _ 0 (colorPlan_transfers r g b brightness)
        by_cases h3 : (attemptTransfers o 0 (colorTransferPlan r g b brightness)).1
        · rw [if_pos h3, runUsb, runUsb, runUsb_append, runUsb_transfers _ htr]
          exact ⟨rfl, rfl⟩
        · rw [if_neg h3, runUsb, runUsb, runUsb_append, runUsb_transfers _ htr]
          exact ⟨rfl, rfl⟩
  · rw [set_animation]
    constructor <;> (repeat' split) <;> rfl

lemma effect_code_none (e : String) (h : e ∉ supported_effects) :
    effect_code e = none := by
  rw [effect_code.eq_def]
  split
  all_goals first
    | rfl
    | (exfalso; apply h; simp [supported_effects])

/-- C2 counterexample: with a fully healthy device and the unsupported
effect name "disco", `set_animation` returns an error, yet the
animation-init control packet has already been transferred to the device —
so it is false that no control or interrupt transfer is issued when the
name is unsupported. -/
theorem set_animation_unsupported_issues_transfer :
    (set_animation allOkUsb "disco" 5 100).1.isOk = false ∧
      UsbAction.control animInitPayload ∈ (set_animation allOkUsb "disco" 5 100).2 := by
  decide

/-- C2 (amended): for every unsupported effect name, `set_animation`
returns an error before the effect-apply transfer: no apply or interrupt
transfer is ever issued, and the only actions that may precede the
rejection are the auto-detach flag, the interface claim, the single
animation-init control packet, and the handle drop — because the source
opens the device, claims the interface and sends the init packet before
validating the name. -/
theorem set_animation_unsupported_rejected (o : UsbOracle) (effect : String)
    (speed brightness : Nat) (h : ascii_lowercase effect ∉ supported_effects) :
    (set_animation o effect speed brightness).1.isOk = false ∧
    ∀ a ∈ (set_animation o effect speed brightness).2,
      a = UsbAction.setAutoDetach true ∨ a = UsbAction.claim ∨
        a = UsbAction.control animInitPayload ∨ a = UsbAction.dropHandle := by
  have hep : effect_payload (ascii_lowercase effect) (min 10 (max 1 speed))
      (min brightness 100) =
      Except.error ("Unknown animation " ++ ascii_lowercase effect ++ ". Supported: " ++
        String.intercalate ", " supported_effects) := by
    rw [effect_payload, effect_code_none _ h]
  rw [set_animation]
  by_cases h1 : o.deviceFound = false
  · rw [if_pos h1]
    exact ⟨rfl, fun a ha => absurd ha (List.not_mem_nil _)⟩
  · rw [if_neg h1]
    by_cases h2 : o.claimOk = false
    · rw [if_pos h2]
      refine ⟨rfl, ?_⟩
      intro a ha
      simp only [List.mem_cons, List.not_mem_nil, or_false] at ha
      rcases ha with rfl | rfl <;> simp
    · rw [if_neg h2]
      by_cases h3 : o.transferOk 0 = false
      · rw [if_pos h3]
        refine ⟨rfl, ?_⟩
        intro a ha
        simp only [List.mem_cons, List.not_mem_nil, or_false] at ha
        rcases ha with rfl | rfl | rfl | rfl <;> simp
      · rw [if_neg h3, hep]
        refine ⟨rfl, ?_⟩
        intro a ha
        simp only [List.mem_cons, List.not_mem_nil, or_false] at ha
        rcases ha with rfl | rfl | rfl | rfl <;> simp

/-- C2 amended-claim witness at the concrete unsupported name "disco"
against the healthy device. -/
theorem set_animation_unsupported_rejected_witness :
    (ascii_lowercase "disco" ∉ supported_effects) ∧
      (set_animation allOkUsb "disco" 5 100).1.isOk = false :=
  ⟨by decide,
    (set_animation_unsupported_rejected allOkUsb "disco" 5 100 (by decide)).1⟩

/-!
## Shared protocol types and daemon command handling

Types from src/shared/src/lib.rs and the handlers of
src/daemon/src/main.rs.  `handle_command` (lines 149-257) is the
authority for the configuration fields it reads and writes (`fan_mode`,
`battery_limiter`, `rgb_mode`, `rgb_brightness`, `fx_speed`,
`smart_battery_saver`, `lcd_overdrive`, `boot_animation`,
`usb_charging`); the config.rs of this iteration of the repo still
declares an older field set, so the store is modelled after the
handler's uses.  The sysfs writes of `HardwareInterface`
(src/daemon/src/hardware.rs) and the keyboard apply call are oracle
outcomes; `KeyboardInterface::apply_mode`, called by the handler but not
present under src/, is modelled from the spec as the lighting driver's
typed success/error entry point.  `persist_config` (lines 284-291) locks
the store, applies the mutation and saves, so the persisted copy is a
second `DaemonConfig` that `save` overwrites with the in-memory one.
The `SetThermalProfile` variant of the shared `Command` enum has no arm
in this iteration's `handle_command` and is not modelled.
-/

inductive FanMode : Type
  | auto | quiet | balanced | performance | turbo
  | custom (cpu gpu : Nat)
deriving DecidableEq

inductive ProfessionalColor : Type
  | arcticWhite | archCyan | nightShiftRed | eyeCareAmber
deriving DecidableEq

inductive RgbMode : Type
  | solid (c : ProfessionalColor)
  | wave
  | neon
deriving DecidableEq

inductive Command : Type
  | getHardwareStatus
  | setFanMode (m : FanMode)
  | setBatteryLimiter (b : Bool)
  | setRgbMode (m : RgbMode)
  | increaseRgbBrightness
  | decreaseRgbBrightness
  | toggleSmartBatterySaver
  | setLcdOverdrive (b : Bool)
  | setBootAnimation (b : Bool)
  | setUsbCharging (threshold : Nat)
  | setBatteryCalibration (b : Bool)
deriving DecidableEq

/-- The fields `handle_command` places in `Response::HardwareStatus`. -/
structure HardwareStatus where
  cpu_temp : Nat
  gpu_temp : Nat
  cpu_fan_percent : Nat
  gpu_fan_percent : Nat
  fan_mode : FanMode
  active_rgb_mode : RgbMode
  rgb_brightness : Nat
  fx_speed : Nat
  smart_battery_saver : Bool
  battery_limiter : Bool
deriving DecidableEq

inductive Response : Type
  | ack (msg : String)
  | error (msg : String)
  | hardwareStatus (s : HardwareStatus)
deriving DecidableEq

/-- The daemon configuration, with the fields `handle_command` uses. -/
structure DaemonConfig where
  fan_mode : FanMode
  battery_limiter : Bool
  rgb_mode : RgbMode
  rgb_brightness : Nat
  fx_speed : Nat
  smart_battery_saver : Bool
  lcd_overdrive : Bool
  boot_animation : Bool
  usb_charging : Nat
deriving DecidableEq

/-- In-memory store plus its persisted on-disk copy. -/
structure DaemonState where
  mem : DaemonConfig
  disk : DaemonConfig
deriving DecidableEq

/-- Hardware calls a handler attempts, recorded in program order. -/
inductive HwCall : Type
  | fanMode (m : FanMode)
  | batteryLimiter (b : Bool)
  | batteryCalibration (b : Bool)
  | backlightTimeout (b : Bool)
  | lcdOverdrive (b : Bool)
  | bootAnimation (b : Bool)
  | usbWrite (t : Nat)
  | keyboardApply (m : RgbMode) (brightness fxspeed : Nat)
  | readFanSpeed
  | readCpuTemp
  | readGpuTemp
deriving DecidableEq

/-- Outcomes of the individual hardware operations. -/
structure HwOracle where
  setFanMode : FanMode → Except String Unit
  setBatteryLimiter : Bool → Except String Unit
  setBatteryCalibration : Bool → Except String Unit
  setBacklightTimeout : Bool → Except String Unit
  setLcdOverdrive : Bool → Except String Unit
  setBootAnimation : Bool → Except String Unit
  writeUsbCharging : Nat → Except String Unit
  applyMode : RgbMode → Nat → Nat → Except String Unit
  fanSpeed : Except String (Nat × Nat)
  cpuTemp : Except String Nat
  gpuTemp : Except String Nat

/-- Rust `{:?}` rendering of `FanMode` used in Ack messages. -/
def fanModeRepr : FanMode → String
  | .auto => "Auto"
  | .quiet => "Quiet"
  | .balanced => "Balanced"
  | .performance => "Performance"
  | .turbo => "Turbo"
  | .custom c g => "Custom(" ++ toString c ++ ", " ++ toString g ++ ")"

def colorRepr : ProfessionalColor → String
  | .arcticWhite => "ArcticWhite"
  | .archCyan => "ArchCyan"
  | .nightShiftRed => "NightShiftRed"
  | .eyeCareAmber => "EyeCareAmber"

def rgbModeRepr : RgbMode → String
  | .solid c => "Solid(" ++ colorRepr c ++ ")"
  | .wave => "Wave"
  | .neon => "Neon"

/-- `persist_config` (main.rs lines 284-291): mutate the in-memory store
under the lock, then `save` writes the whole configuration to disk. -/
def persist (st : DaemonState) (mutate : DaemonConfig → DaemonConfig) :
    DaemonState :=
  ⟨mutate st.mem, mutate st.mem⟩

/-- `unwrap_or` on a `Result`. -/
def unwrapOr {α : Type} (r : Except String α) (d : α) : α :=
  match r with
  | .ok a => a
  | .error _ => d

/-- The fixed allowed USB-charging thresholds (hardware.rs line 165). -/
def usb_allowed : List Nat := [0, 10, 20, 30]

/-- `HardwareInterface::set_usb_charging` (hardware.rs lines 164-170):
the threshold is validated before any sysfs write; only a valid
threshold reaches `write_sysfs`, whose outcome the oracle supplies.  The
second component records the sysfs writes attempted. -/
def hw_set_usb_charging (o : HwOracle) (threshold : Nat) :
    Except String Unit × List HwCall :=
  if threshold ∉ usb_allowed then
    (Except.error "USB threshold must be one of 0, 10, 20, 30", [])
  else (o.writeUsbCharging threshold, [HwCall.usbWrite threshold])

/-- The result of one command: the reply, the store state after the
command, and the hardware calls attempted. -/
structure HandleResult where
  resp : Response
  state : DaemonState
  calls : List HwCall
deriving DecidableEq

/-- The hardware-write-first pattern every mutating arm of
`handle_command` follows: on `Ok` mutate-and-persist and acknowledge, on
`Err` reply the error verbatim and leave the store untouched. -/
def applyHw (st : DaemonState) (res : Except String Unit) (okMsg : String)
    (mutate : DaemonConfig → DaemonConfig) (call : HwCall) : HandleResult :=
  match res with
  | .ok _ => ⟨Response.ack okMsg, persist st mutate, [call]⟩
  | .error e => ⟨Response.error e, st, [call]⟩

def BRIGHTNESS_STEP : Nat := 10

/-- The clamped step of `update_brightness` (main.rs lines 265-269):
`saturating_add(10).min(100)` on increase — for a u8 value the saturation
at 255 never changes the subsequent `.min(100)`, so it is
`min (current + 10) 100` — and `saturating_sub(10)` on decrease. -/
def brightness_target (current : Nat) (increase : Bool) : Nat :=
  if increase then min (current + BRIGHTNESS_STEP) 100
  else current - BRIGHTNESS_STEP

/-- `update_brightness` (main.rs lines 259-282). -/
def update_brightness (st : DaemonState) (o : HwOracle) (increase : Bool) :
    HandleResult :=
  if brightness_target st.mem.rgb_brightness increase = st.mem.rgb_brightness then
    ⟨Response.ack ("RGB brightness remains at " ++
        toString st.mem.rgb_brightness ++ "%"), st, []⟩
  else
    match o.applyMode st.mem.rgb_mode
        (brightness_target st.mem.rgb_brightness increase) st.mem.fx_speed with
    | .ok _ =>
      ⟨Response.ack ("RGB brightness set to " ++
          toString (brightness_target st.mem.rgb_brightness increase) ++ "%"),
        persist st (fun cfg =>
          { cfg with rgb_brightness :=
              brightness_target st.mem.rgb_brightness increase }),
        [HwCall.keyboardApply st.mem.rgb_mode
          (brightness_target st.mem.rgb_brightness increase) st.mem.fx_speed]⟩
    | .error e =>
      ⟨Response.error e, st,
        [HwCall.keyboardApply st.mem.rgb_mode
          (brightness_target st.mem.rgb_brightness increase) st.mem.fx_speed]⟩

/-- `handle_command` (main.rs lines 149-257). -/
def handle_command (cmd : Command) (st : DaemonState) (o : HwOracle) :
    HandleResult :=
  match cmd with
  | .getHardwareStatus =>
    ⟨Response.hardwareStatus
      { cpu_temp := unwrapOr o.cpuTemp 0,
        gpu_temp := unwrapOr o.gpuTemp 0,
        cpu_fan_percent := (unwrapOr o.fanSpeed (0, 0)).1,
        gpu_fan_percent := (unwrapOr o.fanSpeed (0, 0)).2,
        fan_mode := st.mem.fan_mode,
        active_rgb_mode := st.mem.rgb_mode,
        rgb_brightness := st.mem.rgb_brightness,
        fx_speed := st.mem.fx_speed,
        smart_battery_saver := st.mem.smart_battery_saver,
        battery_limiter := st.mem.battery_limiter },
      st, [HwCall.readFanSpeed, HwCall.readCpuTemp, HwCall.readGpuTemp]⟩
  | .setFanMode m =>
    applyHw st (o.setFanMode m) ("Fan mode set to " ++ fanModeRepr m)
      (fun cfg => { cfg with fan_mode := m }) (HwCall.fanMode m)
  | .setBatteryLimiter b =>
    applyHw st (o.setBatteryLimiter b)
      ("Battery limiter set to " ++ toString b)
      (fun cfg => { cfg with battery_limiter := b }) (HwCall.batteryLimiter b)
  | .setBatteryCalibration b =>
    (match o.setBatteryCalibration b with
     | .ok _ =>
       ⟨Response.ack ("Battery calibration set to " ++ toString b), st,
         [HwCall.batteryCalibration b]⟩
     | .error e => ⟨Response.error e, st, [HwCall.batteryCalibration b]⟩)
  | .setRgbMode m =>
    applyHw st (o.applyMode m st.mem.rgb_brightness st.mem.fx_speed)
      ("RGB mode set to " ++ rgbModeRepr m)
      (fun cfg => { cfg with rgb_mode := m })
      (HwCall.keyboardApply m st.mem.rgb_brightness st.mem.fx_speed)
  | .increaseRgbBrightness => update_brightness st o true
  | .decreaseRgbBrightness => update_brightness st o false
  | .toggleSmartBatterySaver =>
    applyHw st (o.setBacklightTimeout (!st.mem.smart_battery_saver))
      ("30-second Smart Battery Saver " ++
        (if !st.mem.smart_battery_saver then "enabled" else "disabled"))
      (fun cfg => { cfg with smart_battery_saver := !st.mem.smart_battery_saver })
      (HwCall.backlightTimeout (!st.mem.smart_battery_saver))
  | .setLcdOverdrive b =>
    applyHw st (o.setLcdOverdrive b) ("LCD overdrive set to " ++ toString b)
      (fun cfg => { cfg with lcd_overdrive := b }) (HwCall.lcdOverdrive b)
  | .setBootAnimation b =>
    applyHw st (o.setBootAnimation b) ("Boot animation set to " ++ toString b)
      (fun cfg => { cfg with boot_animation := b }) (HwCall.bootAnimation b)
  | .setUsbCharging threshold =>
    (match (hw_set_usb_charging o threshold).1 with
     | .ok _ =>
       ⟨Response.ack ("USB charging threshold set to " ++
           toString threshold ++ "%"),
         persist st (fun cfg => { cfg with usb_charging := threshold }),
         (hw_set_usb_charging o threshold).2⟩
     | .error e =>
       ⟨Response.error e, st, (hw_set_usb_charging o threshold).2⟩)

/-- One accepted connection (main.rs lines 109-132): one read into the
bounded buffer, at most one response written.  The read result and the
JSON decoder (`serde_json::from_slice`) are abstract inputs; the result
lists the responses written, in order. -/
def handle_connection (readResult : Except String (List Nat))
    (decode : List Nat → Except String Command) (st : DaemonState)
    (o : HwOracle) : List Response :=
  match readResult with
  | Except.error e => [Response.error ("Read failed: " ++ e)]
  | Except.ok buffer =>
    if buffer.length = 0 then []
    else
      match decode buffer with
      | Except.ok command => [(handle_command command st o).resp]
      | Except.error e => [Response.error ("Invalid command payload: " ++ e)]

/-!
### Store-consistency and validation theorems
-/

/-- The commands the spec's store-consistency contract covers (all the
mutating commands; battery calibration never touches the store and the
status query never mutates). -/
def IsMutating : Command → Prop
  | .setFanMode _ => True
  | .setBatteryLimiter _ => True
  | .setRgbMode _ => True
  | .setLcdOverdrive _ => True
  | .setBootAnimation _ => True
  | .setUsbCharging _ => True
  | .toggleSmartBatterySaver => True
  | .increaseRgbBrightness => True
  | .decreaseRgbBrightness => True
  | _ => False

/-- The outcome of the hardware write a command performs, if it performs
one (`none` for a brightness step already at its bound, which writes
nothing, and for the non-mutating commands). -/
def commandHwOutcome (o : HwOracle) (st : DaemonState) :
    Command → Option (Except String Unit)
  | .setFanMode m => some (o.setFanMode m)
  | .setBatteryLimiter b => some (o.setBatteryLimiter b)
  | .setRgbMode m => some (o.applyMode m st.mem.rgb_brightness st.mem.fx_speed)
  | .setLcdOverdrive b => some (o.setLcdOverdrive b)
  | .setBootAnimation b => some (o.setBootAnimation b)
  | .setUsbCharging t => some (hw_set_usb_charging o t).1
  | .toggleSmartBatterySaver =>
    some (o.setBacklightTimeout (!st.mem.smart_battery_saver))
  | .increaseRgbBrightness =>
    if brightness_target st.mem.rgb_brightness true = st.mem.rgb_brightness then
      none
    else
      some (o.applyMode st.mem.rgb_mode
        (brightness_target st.mem.rgb_brightness true) st.mem.fx_speed)
  | .decreaseRgbBrightness =>
    if brightness_target st.mem.rgb_brightness false = st.mem.rgb_brightness then
      none
    else
      some (o.applyMode st.mem.rgb_mode
        (brightness_target st.mem.rgb_brightness false) st.mem.fx_speed)
  | _ => none

lemma applyHw_spec (st : DaemonState) (res : Except String Unit)
    (okMsg : String) (mutate : DaemonConfig → DaemonConfig) (call : HwCall) :
    (∀ e, res = Except.error e →
      (applyHw st res okMsg mutate call).resp = Response.error e ∧
        (applyHw st res okMsg mutate call).state = st) ∧
    (res = Except.ok () →
      (applyHw st res okMsg mutate call).state.disk =
        (applyHw st res okMsg mutate call).state.mem) := by
  constructor
  · intro e he
    rw [he]
    exact ⟨rfl, rfl⟩
  · intro hok
    rw [hok]
    rfl

lemma update_brightness_spec (st : DaemonState) (o : HwOracle)
    (increase : Bool) :
    (∀ e,
      (if brightness_target st.mem.rgb_brightness increase =
          st.mem.rgb_brightness then none
        else some (o.applyMode st.mem.rgb_mode
          (brightness_target st.mem.rgb_brightness increase)
          st.mem.fx_speed)) = some (Except.error e) →
      (update_brightness st o increase).resp = Response.error e ∧
        (update_brightness st o increase).state = st) ∧
    ((if brightness_target st.mem.rgb_brightness increase =
          st.mem.rgb_brightness then none
        else some (o.applyMode st.mem.rgb_mode
          (brightness_target st.mem.rgb_brightness increase)
          st.mem.fx_speed)) = some (Except.ok ()) →
      (update_brightness st o increase).state.disk =
        (update_brightness st o increase).state.mem) := by
  by_cases hT : brightness_target st.mem.rgb_brightness increase =
      st.mem.rgb_brightness
  · rw [if_pos hT]
    exact ⟨fun e he => by simp at he, fun hok => by simp at hok⟩
  · rw [if_neg hT]
    unfold update_brightness
    rw [if_neg hT]
    constructor
    · intro e he
      rw [Option.some.inj he]
      exact ⟨rfl, rfl⟩
    · intro hok
      rw [Option.some.inj hok]
      rfl

/-- C3: every mutating command whose hardware write fails replies
`Response::Error` with exactly that error and leaves both the in-memory
and the persisted configuration equal to their pre-command state; and
whenever the hardware write succeeds, the store is mutated and saved in
one step, leaving disk and memory equal — the store is only ever touched
after a successful hardware write. -/
theorem mutating_command_store_consistency (o : HwOracle) (st : DaemonState)
    (cmd : Command) (hm : IsMutating cmd) :
    (∀ e, commandHwOutcome o st cmd = some (Except.error e) →
      (handle_command cmd st o).resp = Response.error e ∧
        (handle_command cmd st o).state = st) ∧
    (commandHwOutcome o st cmd = some (Except.ok ()) →
      (handle_command cmd st o).state.disk =
        (handle_command cmd st o).state.mem) := by
  cases cmd with
  | getHardwareStatus => exact hm.elim
  | setBatteryCalibration b => exact hm.elim
  | setFanMode m =>
    exact ⟨fun e he => (applyHw_spec st (o.setFanMode m) _ _ _).1 e
        (Option.some.inj he),
      fun hok => (applyHw_spec st (o.setFanMode m) _ _ _).2
        (Option.some.inj hok)⟩
  | setBatteryLimiter b =>
    exact ⟨fun e he => (applyHw_spec st (o.setBatteryLimiter b) _ _ _).1 e
        (Option.some.inj he),
      fun hok => (applyHw_spec st (o.setBatteryLimiter b) _ _ _).2
        (Option.some.inj hok)⟩
  | setRgbMode m =>
    exact ⟨fun e he =>
        (applyHw_spec st (o.applyMode m st.mem.rgb_brightness st.mem.fx_speed)
          _ _ _).1 e (Option.some.inj he),
      fun hok =>
        (applyHw_spec st (o.applyMode m st.mem.rgb_brightness st.mem.fx_speed)
          _ _ _).2 (Option.some.inj hok)⟩
  | setLcdOverdrive b =>
    exact ⟨fun e he => (applyHw_spec st (o.setLcdOverdrive b) _ _ _).1 e
        (Option.some.inj he),
      fun hok => (applyHw_spec st (o.setLcdOverdrive b) _ _ _).2
        (Option.some.inj hok)⟩
  | setBootAnimation b =>
    exact ⟨fun e he => (applyHw_spec st (o.setBootAnimation b) _ _ _).1 e
        (Option.some.inj he),
      fun hok => (applyHw_spec st (o.setBootAnimation b) _ _ _).2
        (Option.some.inj hok)⟩
  | toggleSmartBatterySaver =>
    exact ⟨fun e he =>
        (applyHw_spec st (o.setBacklightTimeout (!st.mem.smart_battery_saver))
          _ _ _).1 e (Option.some.inj he),
      fun hok =>
        (applyHw_spec st (o.setBacklightTimeout (!st.mem.smart_battery_saver))
          _ _ _).2 (Option.some.inj hok)⟩
  | increaseRgbBrightness => exact update_brightness_spec st o true
  | decreaseRgbBrightness => exact update_brightness_spec st o false
  | setUsbCharging threshold =>
    constructor
    · intro e he
      have h1 : (hw_set_usb_charging o threshold).1 = Except.error e :=
        Option.some.inj he
      show (handle_command (Command.setUsbCharging threshold) st o).resp = _ ∧ _
      simp only [handle_command]
      rw [h1]
      exact ⟨rfl, rfl⟩
    · intro hok
      have h1 : (hw_set_usb_charging o threshold).1 = Except.ok () :=
        Option.some.inj hok
      show (handle_command (Command.setUsbCharging threshold) st o).state.disk = _
      simp only [handle_command]
      rw [h1]
      rfl

/-- A fixed configuration and state used by the witnesses. -/
def cfg0 : DaemonConfig :=
  ⟨FanMode.auto, false, RgbMode.solid ProfessionalColor.archCyan, 100, 5,
    false, false, true, 0⟩

def st0 : DaemonState := ⟨cfg0, cfg0⟩

/-- A hardware oracle whose every write fails. -/
def failHw : HwOracle :=
  ⟨fun _ => Except.error "hw down", fun _ => Except.error "hw down",
    fun _ => Except.error "hw down", fun _ => Except.error "hw down",
    fun _ => Except.error "hw down", fun _ => Except.error "hw down",
    fun _ => Except.error "hw down", fun _ _ _ => Except.error "hw down",
    Except.error "hw down", Except.error "hw down", Except.error "hw down"⟩

/-- A hardware oracle whose every operation succeeds. -/
def okHw : HwOracle :=
  ⟨fun _ => Except.ok (), fun _ => Except.ok (), fun _ => Except.ok (),
    fun _ => Except.ok (), fun _ => Except.ok (), fun _ => Except.ok (),
    fun _ => Except.ok (), fun _ _ _ => Except.ok (),
    Except.ok (30, 30), Except.ok 50, Except.ok 45⟩

/-- C3 witness: `SetFanMode(Turbo)` against failing hardware replies the
error and leaves the state untouched. -/
theorem mutating_command_store_consistency_witness :
    IsMutating (Command.setFanMode FanMode.turbo) ∧
      commandHwOutcome failHw st0 (Command.setFanMode FanMode.turbo) =
        some (Except.error "hw down") ∧
      (handle_command (Command.setFanMode FanMode.turbo) st0 failHw).resp =
        Response.error "hw down" ∧
      (handle_command (Command.setFanMode FanMode.turbo) st0 failHw).state = st0 :=
  ⟨trivial, rfl,
    ((mutating_command_store_consistency failHw st0
        (Command.setFanMode FanMode.turbo) trivial).1 "hw down" rfl).1,
    ((mutating_command_store_consistency failHw st0
        (Command.setFanMode FanMode.turbo) trivial).1 "hw down" rfl).2⟩

/-- C6: every threshold outside {0, 10, 20, 30} is rejected by the
validation in `set_usb_charging` before any sysfs write (no hardware call
is recorded at all), the handler replies the validation error, and both
the in-memory and the persisted configuration are unchanged. -/
theorem usb_charging_validation (o : HwOracle) (st : DaemonState) (t : Nat)
    (h : t ∉ usb_allowed) :
    hw_set_usb_charging o t =
      (Except.error "USB threshold must be one of 0, 10, 20, 30", []) ∧
    handle_command (Command.setUsbCharging t) st o =
      ⟨Response.error "USB threshold must be one of 0, 10, 20, 30", st, []⟩ := by
  have h1 : hw_set_usb_charging o t =
      (Except.error "USB threshold must be one of 0, 10, 20, 30", []) := by
    unfold hw_set_usb_charging
    rw [if_pos h]
  refine ⟨h1, ?_⟩
  simp only [handle_command]
  rw [h1]

/-- C6 witness: `SetUsbCharging(15)` is rejected with the validation
error and no state change. -/
theorem usb_charging_validation_witness :
    (15 : Nat) ∉ usb_allowed ∧
      handle_command (Command.setUsbCharging 15) st0 okHw =
        ⟨Response.error "USB threshold must be one of 0, 10, 20, 30", st0, []⟩ :=
  ⟨by decide, (usb_charging_validation okHw st0 15 (by decide)).2⟩

lemma brightness_target_le (c : Nat) (increase : Bool) (h : c ≤ 100) :
    brightness_target c increase ≤ 100 := by
  unfold brightness_target
  cases increase
  · simp only [Bool.false_eq_true, if_false]
    omega
  · simp only [if_true]
    exact min_le_right _ _

/-- C8: a brightness step at its bound is an acknowledged no-op —
increase at 100 (and decrease at 0) replies the "remains" Ack, leaves the
whole state untouched and attempts no hardware call; and from any stored
brightness within [0, 100] either step command leaves the stored
brightness within [0, 100]. -/
theorem brightness_step_bounds (st : DaemonState) (o : HwOracle) :
    (st.mem.rgb_brightness = 100 →
      handle_command Command.increaseRgbBrightness st o =
        ⟨Response.ack "RGB brightness remains at 100%", st, []⟩) ∧
    (st.mem.rgb_brightness = 0 →
      handle_command Command.decreaseRgbBrightness st o =
        ⟨Response.ack "RGB brightness remains at 0%", st, []⟩) ∧
    (∀ increase : Bool, st.mem.rgb_brightness ≤ 100 →
      (update_brightness st o increase).state.mem.rgb_brightness ≤ 100) := by
  refine ⟨?_, ?_, ?_⟩
  · intro h
    show update_brightness st o true = _
    unfold update_brightness
    rw [h]
    rw [if_pos (by decide)]
    rfl
  · intro h
    show update_brightness st o false = _
    unfold update_brightness
    rw [h]
    rw [if_pos (by decide)]
    rfl
  · intro increase hle
    unfold update_brightness
    by_cases hT : brightness_target st.mem.rgb_brightness increase =
        st.mem.rgb_brightness
    · rw [if_pos hT]
      exact hle
    · rw [if_neg hT]
      cases hap : o.applyMode st.mem.rgb_mode
          (brightness_target st.mem.rgb_brightness increase) st.mem.fx_speed with
      | error e => exact hle
      | ok u => exact brightness_target_le _ increase hle

/-- C8 witness: at stored brightness 100, `IncreaseRgbBrightness` is the
acknowledged no-op. -/
theorem brightness_step_bounds_witness :
    st0.mem.rgb_brightness = 100 ∧
      handle_command Command.increaseRgbBrightness st0 okHw =
        ⟨Response.ack "RGB brightness remains at 100%", st0, []⟩ :=
  ⟨rfl, (brightness_step_bounds st0 okHw).1 rfl⟩

/-- C9: a connection whose single read yields zero bytes produces no
response at all (the task returns before writing); a non-empty payload
that does not decode as a `Command` produces exactly one
`Response::Error` — and the handler is a total function of its own
connection's inputs, so a malformed connection cannot disturb another. -/
theorem connection_protocol (decode : List Nat → Except String Command)
    (st : DaemonState) (o : HwOracle) :
    (handle_connection (Except.ok []) decode st o = []) ∧
    (∀ (buffer : List Nat) (e : String), buffer ≠ [] →
      decode buffer = Except.error e →
      handle_connection (Except.ok buffer) decode st o =
        [Response.error ("Invalid command payload: " ++ e)]) := by
  constructor
  · rfl
  · intro buffer e hne hd
    simp only [handle_connection]
    rw [if_neg (by simpa using hne), hd]

/-- C9 witness: the empty read yields no response and an undecodable
one-byte payload yields exactly one error response. -/
theorem connection_protocol_witness :
    handle_connection (Except.ok []) (fun _ => Except.error "bad") st0 okHw = [] ∧
      handle_connection (Except.ok [123]) (fun _ => Except.error "bad") st0 okHw =
        [Response.error "Invalid command payload: bad"] :=
  ⟨(connection_protocol (fun _ => Except.error "bad") st0 okHw).1,
    (connection_protocol (fun _ => Except.error "bad") st0 okHw).2 [123] "bad"
      (by decide) rfl⟩

end ArchSense
